import Mathlib

/-!
Verification of the soia runtime model exercised by this repository
(snippets.py, start_service.py, call_service.py).

The soia library itself is not part of the source tree; following the
specification document, the runtime (record model, serializer, keyed
arrays, reflection, service dispatcher) is modelled here from the spec's
words, and the concrete schema (`User`, `UserHistory`, `UserRegistry`,
`SubscriptionStatus`, the `AddUser`/`GetUser` service) is modelled from
the way the source files construct and exercise those types.

The JSON text layer (`to_json_code` / `from_json_code` wrap the value
codecs with standard JSON text serialization) is given an executable
printer and parser over an inductive `Json` type, with a proved
round-trip theorem, so that the `*_code` claims are settled end to end.
-/

/-! ## Decimal digits -/

/-- Character for a single decimal digit. -/
def digitChar (d : Fin 10) : Char := Char.ofNat (48 + d.val)

/-- Decimal digit denoted by a character, if any. -/
def charToDigit (c : Char) : Option (Fin 10) :=
  if h : 48 ≤ c.toNat ∧ c.toNat < 58 then some ⟨c.toNat - 48, by omega⟩ else none

theorem charToDigit_digitChar (d : Fin 10) : charToDigit (digitChar d) = some d := by
  fin_cases d <;> decide

/-- Little-endian decimal digits of a natural number (empty for zero). -/
def natDigitsLE : Nat → List (Fin 10)
  | 0 => []
  | n + 1 =>
    have : (n + 1) / 10 < n + 1 := Nat.div_lt_self (Nat.succ_pos n) (by omega)
    ⟨(n + 1) % 10, Nat.mod_lt _ (by omega)⟩ :: natDigitsLE ((n + 1) / 10)

/-- Value of a little-endian digit list. -/
def digitsLEToNat : List (Fin 10) → Nat
  | [] => 0
  | d :: t => d.val + 10 * digitsLEToNat t

theorem digitsLEToNat_natDigitsLE : ∀ n, digitsLEToNat (natDigitsLE n) = n
  | 0 => by simp [natDigitsLE, digitsLEToNat]
  | n + 1 => by
    have hlt : (n + 1) / 10 < n + 1 := Nat.div_lt_self (Nat.succ_pos n) (by omega)
    rw [natDigitsLE]
    simp only [digitsLEToNat]
    rw [digitsLEToNat_natDigitsLE ((n + 1) / 10)]
    omega

/-- Big-endian decimal digits, printing zero as a single digit. -/
def natToDigits (n : Nat) : List (Fin 10) :=
  if n = 0 then [⟨0, by omega⟩] else (natDigitsLE n).reverse

/-- Value of a big-endian digit list. -/
def digitsToNat (ds : List (Fin 10)) : Nat :=
  ds.foldl (fun a d => 10 * a + d.val) 0

theorem digitsToNat_foldl (ds : List (Fin 10)) (a : Nat) :
    ds.foldl (fun a d => 10 * a + d.val) a = a * 10 ^ ds.length + digitsToNat ds := by
  induction ds generalizing a with
  | nil => simp [digitsToNat]
  | cons d t ih =>
    simp only [digitsToNat, List.foldl_cons, List.length_cons]
    rw [ih (10 * a + d.val), ih (10 * 0 + d.val)]
    ring

theorem digitsToNat_reverse (l : List (Fin 10)) :
    digitsToNat l.reverse = digitsLEToNat l := by
  induction l with
  | nil => rfl
  | cons d t ih =>
    have h : digitsToNat ((d :: t).reverse) = 10 * digitsToNat t.reverse + d.val := by
      simp [digitsToNat, List.foldl_append]
    rw [h, ih, digitsLEToNat]
    ring

theorem digitsToNat_natToDigits (n : Nat) : digitsToNat (natToDigits n) = n := by
  by_cases h : n = 0
  · subst h; rfl
  · rw [natToDigits, if_neg h, digitsToNat_reverse, digitsLEToNat_natDigitsLE]

theorem natToDigits_ne_nil (n : Nat) : natToDigits n ≠ [] := by
  by_cases h : n = 0
  · subst h; simp [natToDigits]
  · rw [natToDigits, if_neg h]
    intro hrev
    rcases Nat.exists_eq_add_of_lt (Nat.pos_of_ne_zero h) with ⟨k, hk⟩
    rw [List.reverse_eq_nil_iff] at hrev
    rw [show n = k + 1 by omega] at hrev
    simp [natDigitsLE] at hrev

/-! ## Float literals

Python floats serialized by the standard JSON codec appear on the wire as
signed decimal literals with a mandatory fractional part.  The model takes
this canonical wire form itself as the float value domain: a sign, an
integer part, and a nonempty list of fractional digits. -/

/-- Decimal-literal model of a 64-bit float value. -/
structure Float64 where
  neg : Bool
  intPart : Nat
  fracHead : Fin 10
  fracTail : List (Fin 10)
deriving DecidableEq

/-- The float value zero, written `0.0`. -/
def Float64.zero : Float64 := ⟨false, 0, ⟨0, by omega⟩, []⟩

/-! ## JSON values -/

/-- JSON value, the common output of `to_json` and input of `from_json`. -/
inductive Json where
  | null
  | bool (b : Bool)
  | int (n : Int)
  | float (f : Float64)
  | str (s : String)
  | arr (elems : List Json)
  | obj (members : List (String × Json))

/-- Opening brace character. -/
def lbrace : Char := Char.ofNat 123

/-- Closing brace character. -/
def rbrace : Char := Char.ofNat 125

/-- Lower-case hexadecimal digit character. -/
def hexDigitChar (n : Nat) : Char :=
  if n < 10 then Char.ofNat (48 + n) else Char.ofNat (87 + n)

/-- JSON escaping of one character inside a string literal. -/
def escapeChar (c : Char) : List Char :=
  if c = '"' then "\\\"".data
  else if c = '\\' then "\\\\".data
  else if c.toNat < 32 then
    "\\u00".data ++ [hexDigitChar (c.toNat / 16), hexDigitChar (c.toNat % 16)]
  else [c]

/-- JSON escaping of a character list. -/
def escapeList : List Char → List Char
  | [] => []
  | c :: t => escapeChar c ++ escapeList t

/-- Characters of a natural number in decimal. -/
def printNat (n : Nat) : List Char := (natToDigits n).map digitChar

/-- Characters of an integer in decimal. -/
def printInt (n : Int) : List Char :=
  if n < 0 then '-' :: printNat n.natAbs else printNat n.toNat

/-- Characters of a float literal. -/
def printFloat (f : Float64) : List Char :=
  (if f.neg then ['-'] else []) ++ printNat f.intPart
    ++ '.' :: (f.fracHead :: f.fracTail).map digitChar

mutual

/-- JSON text of a value, as a character list. -/
def printVal : Json → List Char
  | .null => "null".data
  | .bool true => "true".data
  | .bool false => "false".data
  | .int n => printInt n
  | .float f => printFloat f
  | .str s => '"' :: escapeList s.data ++ ['"']
  | .arr [] => ['[', ']']
  | .arr (j :: t) => '[' :: (printVal j ++ printElemsTail t) ++ [']']
  | .obj [] => [lbrace, rbrace]
  | .obj (m :: t) => lbrace :: (printMember m ++ printMembersTail t) ++ [rbrace]

/-- Remaining array elements, each preceded by a comma. -/
def printElemsTail : List Json → List Char
  | [] => []
  | j :: t => ',' :: (printVal j ++ printElemsTail t)

/-- One object member: quoted key, colon, value. -/
def printMember : String × Json → List Char
  | (k, v) => '"' :: escapeList k.data ++ ['"'] ++ (':' :: printVal v)

/-- Remaining object members, each preceded by a comma. -/
def printMembersTail : List (String × Json) → List Char
  | [] => []
  | m :: t => ',' :: (printMember m ++ printMembersTail t)

end

mutual

/-- Fuel measure of a JSON value for the parser. -/
def Json.size : Json → Nat
  | .arr l => 1 + sizeElems l
  | .obj l => 1 + sizeMembers l
  | _ => 1

/-- Fuel measure of a list of array elements. -/
def sizeElems : List Json → Nat
  | [] => 0
  | j :: t => 1 + Json.size j + sizeElems t

/-- Fuel measure of a list of object members. -/
def sizeMembers : List (String × Json) → Nat
  | [] => 0
  | m :: t => 1 + Json.size m.2 + sizeMembers t

end

theorem Json.size_pos (j : Json) : 1 ≤ Json.size j := by
  cases j <;> simp [Json.size]

/-! ## JSON text parser -/

/-- Hexadecimal value of a character, if any. -/
def hexVal (c : Char) : Option Nat :=
  if 48 ≤ c.toNat ∧ c.toNat ≤ 57 then some (c.toNat - 48)
  else if 97 ≤ c.toNat ∧ c.toNat ≤ 102 then some (c.toNat - 87)
  else if 65 ≤ c.toNat ∧ c.toNat ≤ 70 then some (c.toNat - 55)
  else none

/-- Longest prefix of decimal digits, with the remaining characters. -/
def takeDigits : List Char → List (Fin 10) × List Char
  | [] => ([], [])
  | c :: rest =>
    match charToDigit c with
    | some d =>
      let p := takeDigits rest
      (d :: p.1, p.2)
    | none => ([], c :: rest)

/-- Body of a JSON string literal after the opening quote, up to and
including the closing quote; returns the unescaped characters. -/
def parseStringBody : List Char → Option (List Char × List Char)
  | [] => none
  | c :: rest =>
    if c = '"' then some ([], rest)
    else if c = '\\' then
      match rest with
      | [] => none
      | e :: rest2 =>
        if e = '"' then (parseStringBody rest2).map (fun p => ('"' :: p.1, p.2))
        else if e = '\\' then (parseStringBody rest2).map (fun p => ('\\' :: p.1, p.2))
        else if e = '/' then (parseStringBody rest2).map (fun p => ('/' :: p.1, p.2))
        else if e = 'n' then (parseStringBody rest2).map (fun p => ('\n' :: p.1, p.2))
        else if e = 't' then (parseStringBody rest2).map (fun p => ('\t' :: p.1, p.2))
        else if e = 'r' then (parseStringBody rest2).map (fun p => ('\r' :: p.1, p.2))
        else if e = 'b' then (parseStringBody rest2).map (fun p => (Char.ofNat 8 :: p.1, p.2))
        else if e = 'f' then (parseStringBody rest2).map (fun p => (Char.ofNat 12 :: p.1, p.2))
        else if e = 'u' then
          match rest2 with
          | h1 :: h2 :: h3 :: h4 :: rest3 =>
            match hexVal h1, hexVal h2, hexVal h3, hexVal h4 with
            | some a, some b, some c2, some d =>
              (parseStringBody rest3).map
                (fun p => (Char.ofNat (((a * 16 + b) * 16 + c2) * 16 + d) :: p.1, p.2))
            | _, _, _, _ => none
          | _ => none
        else none
    else (parseStringBody rest).map (fun p => (c :: p.1, p.2))

/-- Number token: integer part already known to start here; produces an
`int` when no fraction follows, and a `float` otherwise. -/
def parseNumberCore (neg : Bool) (cs : List Char) : Option (Json × List Char) :=
  match takeDigits cs with
  | ([], _) => none
  | (d :: ds, rest) =>
    let ip := digitsToNat (d :: ds)
    match rest with
    | '.' :: rest2 =>
      match takeDigits rest2 with
      | ([], _) => none
      | (f :: fs, rest3) => some (.float ⟨neg, ip, f, fs⟩, rest3)
    | _ => some (.int (if neg then -(ip : Int) else (ip : Int)), rest)

mutual

/-- Fuel-indexed parser for one JSON value. -/
def parseVal : Nat → List Char → Option (Json × List Char)
  | 0, _ => none
  | _ + 1, [] => none
  | fuel + 1, c :: rest =>
    if c = 'n' then
      match rest with
      | 'u' :: 'l' :: 'l' :: r => some (.null, r)
      | _ => none
    else if c = 't' then
      match rest with
      | 'r' :: 'u' :: 'e' :: r => some (.bool true, r)
      | _ => none
    else if c = 'f' then
      match rest with
      | 'a' :: 'l' :: 's' :: 'e' :: r => some (.bool false, r)
      | _ => none
    else if c = '"' then
      (parseStringBody rest).map (fun p => (.str (String.mk p.1), p.2))
    else if c = '[' then
      match rest with
      | ']' :: r => some (.arr [], r)
      | _ => (parseElems fuel rest).map (fun p => (.arr p.1, p.2))
    else if c = lbrace then
      match rest with
      | [] => none
      | d :: r =>
        if d = rbrace then some (.obj [], r)
        else (parseMembers fuel (d :: r)).map (fun p => (.obj p.1, p.2))
    else if c = '-' then parseNumberCore true rest
    else parseNumberCore false (c :: rest)

/-- Fuel-indexed parser for a nonempty comma-separated element list,
consuming the closing bracket. -/
def parseElems : Nat → List Char → Option (List Json × List Char)
  | 0, _ => none
  | fuel + 1, cs =>
    match parseVal fuel cs with
    | none => none
    | some (j, r) =>
      match r with
      | ',' :: r2 => (parseElems fuel r2).map (fun p => (j :: p.1, p.2))
      | ']' :: r2 => some ([j], r2)
      | _ => none

/-- Fuel-indexed parser for a nonempty comma-separated member list,
consuming the closing brace. -/
def parseMembers : Nat → List Char → Option (List (String × Json) × List Char)
  | 0, _ => none
  | fuel + 1, cs =>
    match cs with
    | [] => none
    | c :: rest =>
      if c = '"' then
        match parseStringBody rest with
        | none => none
        | some (k, r) =>
          match r with
          | ':' :: r2 =>
            match parseVal fuel r2 with
            | none => none
            | some (v, r3) =>
              match r3 with
              | [] => none
              | ',' :: r4 => (parseMembers fuel r4).map (fun p => ((String.mk k, v) :: p.1, p.2))
              | d :: r4 => if d = rbrace then some ([(String.mk k, v)], r4) else none
          | _ => none
      else none

end

/-- JSON text of a value, as a string. -/
def Json.print (j : Json) : String := String.mk (printVal j)

/-- Standard JSON text deserialization into a JSON value; the whole input
must be consumed. -/
def Json.parse (s : String) : Option Json :=
  match parseVal (s.data.length + 1) s.data with
  | some (j, []) => some j
  | _ => none

/-! ## Parser round-trip lemmas -/

/-- The input does not begin with a decimal digit. -/
def noDigitStart : List Char → Bool
  | [] => true
  | c :: _ => (charToDigit c).isNone

/-- The input does not begin with a decimal digit or a dot, so a number
token printed right before it ends exactly there. -/
def numBoundary : List Char → Bool
  | [] => true
  | c :: _ => (charToDigit c).isNone && (c != '.')

theorem noDigitStart_of_numBoundary (cs : List Char) (h : numBoundary cs = true) :
    noDigitStart cs = true := by
  cases cs with
  | nil => rfl
  | cons c r =>
    simp [numBoundary] at h
    simp [noDigitStart, h.1]

theorem takeDigits_noDigit (cs : List Char) (h : noDigitStart cs = true) :
    takeDigits cs = ([], cs) := by
  cases cs with
  | nil => rfl
  | cons c r =>
    simp [noDigitStart, Option.isNone_iff_eq_none] at h
    simp [takeDigits, h]

theorem takeDigits_append (ds : List (Fin 10)) (rest : List Char)
    (h : noDigitStart rest = true) :
    takeDigits (ds.map digitChar ++ rest) = (ds, rest) := by
  induction ds with
  | nil => simpa using takeDigits_noDigit rest h
  | cons d t ih => simp [takeDigits, charToDigit_digitChar, ih]

theorem digitChar_ne_of_none {c : Char} (hc : charToDigit c = none) (d : Fin 10) :
    digitChar d ≠ c := by
  intro h
  rw [← h, charToDigit_digitChar] at hc
  cases hc

theorem parseNumberCore_printNat (neg : Bool) (n : Nat) (rest : List Char)
    (h : numBoundary rest = true) :
    parseNumberCore neg (printNat n ++ rest)
      = some (.int (if neg then -(n : Int) else (n : Int)), rest) := by
  have hnd : noDigitStart rest = true := noDigitStart_of_numBoundary rest h
  have hd : takeDigits (printNat n ++ rest) = (natToDigits n, rest) :=
    takeDigits_append (natToDigits n) rest hnd
  obtain ⟨d, ds, hds⟩ := List.exists_cons_of_ne_nil (natToDigits_ne_nil n)
  have hval : digitsToNat (d :: ds) = n := by rw [← hds, digitsToNat_natToDigits]
  unfold parseNumberCore
  rw [hd, hds]
  cases rest with
  | nil => simp [hval]
  | cons c r =>
    have hc : c ≠ '.' := by
      simp [numBoundary] at h
      exact h.2
    simp only []
    split
    · next heq => exact absurd (List.head_eq_of_cons_eq heq) hc
    · simp [hval]

theorem parseNumberCore_printFloat (neg : Bool) (ip : Nat) (f0 : Fin 10)
    (fs : List (Fin 10)) (rest : List Char) (h : numBoundary rest = true) :
    parseNumberCore neg (printNat ip ++ ('.' :: ((f0 :: fs).map digitChar ++ rest)))
      = some (.float ⟨neg, ip, f0, fs⟩, rest) := by
  have hd : takeDigits (printNat ip ++ ('.' :: ((f0 :: fs).map digitChar ++ rest)))
      = (natToDigits ip, '.' :: ((f0 :: fs).map digitChar ++ rest)) :=
    takeDigits_append (natToDigits ip) _ (by simp [noDigitStart, charToDigit])
  obtain ⟨d, ds, hds⟩ := List.exists_cons_of_ne_nil (natToDigits_ne_nil ip)
  have hval : digitsToNat (d :: ds) = ip := by rw [← hds, digitsToNat_natToDigits]
  have hfrac : takeDigits ((f0 :: fs).map digitChar ++ rest) = (f0 :: fs, rest) :=
    takeDigits_append (f0 :: fs) rest (noDigitStart_of_numBoundary rest h)
  unfold parseNumberCore
  rw [hd, hds]
  simp only [List.map_cons, List.cons_append] at hfrac
  simp [hfrac, hval]

theorem hexVal_hexDigitChar (m : Nat) (h : m < 16) : hexVal (hexDigitChar m) = some m := by
  interval_cases m <;> decide

theorem parseStringBody_escape (cs rest : List Char) :
    parseStringBody (escapeList cs ++ '"' :: rest) = some (cs, rest) := by
  induction cs with
  | nil =>
    rw [show escapeList [] ++ '"' :: rest = '"' :: rest from rfl, parseStringBody.eq_def]
    simp
  | cons c t ih =>
    by_cases h1 : c = '"'
    · subst h1
      have hsh : escapeList ('"' :: t) ++ '"' :: rest
          = '\\' :: '"' :: (escapeList t ++ '"' :: rest) := by
        simp [escapeList, escapeChar]
      rw [hsh, parseStringBody.eq_def]
      simp [ih]
    · by_cases h2 : c = '\\'
      · subst h2
        have hsh : escapeList ('\\' :: t) ++ '"' :: rest
            = '\\' :: '\\' :: (escapeList t ++ '"' :: rest) := by
          simp [escapeList, escapeChar]
        rw [hsh, parseStringBody.eq_def]
        simp [ih]
      · by_cases h3 : c.toNat < 32
        · have hhi : hexVal (hexDigitChar (c.toNat / 16)) = some (c.toNat / 16) :=
            hexVal_hexDigitChar _ (by omega)
          have hlo : hexVal (hexDigitChar (c.toNat % 16)) = some (c.toNat % 16) :=
            hexVal_hexDigitChar _ (by omega)
          have h0 : hexVal '0' = some 0 := by decide
          have hc2 : c.toNat / 16 * 16 + c.toNat % 16 = c.toNat := by omega
          have hsh : escapeList (c :: t) ++ '"' :: rest
              = '\\' :: 'u' :: '0' :: '0' :: hexDigitChar (c.toNat / 16)
                :: hexDigitChar (c.toNat % 16) :: (escapeList t ++ '"' :: rest) := by
            simp [escapeList, escapeChar, h1, h2, h3]
          rw [hsh, parseStringBody.eq_def]
          simp [h0, hhi, hlo, ih, hc2]
        · have hsh : escapeList (c :: t) ++ '"' :: rest
              = c :: (escapeList t ++ '"' :: rest) := by
            simp [escapeList, escapeChar, h1, h2, h3]
          rw [hsh, parseStringBody.eq_def]
          simp [h1, h2, ih]

theorem numBoundary_comma (r : List Char) : numBoundary (',' :: r) = true := rfl

theorem numBoundary_rbracket (r : List Char) : numBoundary (']' :: r) = true := rfl

theorem numBoundary_rbrace (r : List Char) : numBoundary (rbrace :: r) = true := rfl

theorem printVal_head (j : Json) : ∃ c l, printVal j = c :: l ∧ c ≠ ']' := by
  cases j with
  | null => exact ⟨'n', _, rfl, by decide⟩
  | bool b => cases b <;> exact ⟨_, _, rfl, by decide⟩
  | int n =>
    by_cases h : n < 0
    · exact ⟨'-', printNat n.natAbs, by simp [printVal, printInt, h], by decide⟩
    · obtain ⟨d, ds, hds⟩ := List.exists_cons_of_ne_nil (natToDigits_ne_nil n.toNat)
      refine ⟨digitChar d, List.map digitChar ds, ?_, digitChar_ne_of_none (by decide) d⟩
      simp [printVal, printInt, h, printNat, hds]
  | float f =>
    by_cases h : f.neg
    · refine ⟨'-', printNat f.intPart ++ '.' :: digitChar f.fracHead
        :: List.map digitChar f.fracTail, ?_, by decide⟩
      simp [printVal, printFloat, h]
    · obtain ⟨d, ds, hds⟩ := List.exists_cons_of_ne_nil (natToDigits_ne_nil f.intPart)
      refine ⟨digitChar d, List.map digitChar ds ++ '.' :: digitChar f.fracHead
        :: List.map digitChar f.fracTail, ?_, digitChar_ne_of_none (by decide) d⟩
      simp [printVal, printFloat, h, printNat, hds]
  | str s => exact ⟨'"', escapeList s.data ++ ['"'], by simp [printVal], by decide⟩
  | arr l =>
    cases l with
    | nil => exact ⟨'[', _, rfl, by decide⟩
    | cons x t =>
      exact ⟨'[', printVal x ++ (printElemsTail t ++ [']']), by simp [printVal], by decide⟩
  | obj l =>
    cases l with
    | nil => exact ⟨lbrace, _, rfl, by decide⟩
    | cons m t =>
      exact ⟨lbrace, printMember m ++ (printMembersTail t ++ [rbrace]),
        by simp [printVal], by decide⟩

theorem printMember_head (m : String × Json) : ∃ l, printMember m = '"' :: l := by
  obtain ⟨k, v⟩ := m
  exact ⟨escapeList k.data ++ '"' :: ':' :: printVal v, by simp [printMember]⟩

theorem printNat_length_pos (n : Nat) : 1 ≤ (printNat n).length := by
  obtain ⟨d, ds, hds⟩ := List.exists_cons_of_ne_nil (natToDigits_ne_nil n)
  simp [printNat, hds]

mutual

theorem size_le_printVal (j : Json) : Json.size j ≤ (printVal j).length := by
  cases j with
  | null => simp [Json.size, printVal]
  | bool b => cases b <;> simp [Json.size, printVal]
  | int n =>
    have h1 := printNat_length_pos n.natAbs
    have h2 := printNat_length_pos n.toNat
    by_cases h : n < 0 <;> simp [Json.size, printVal, printInt, h] <;> omega
  | float f =>
    have h1 := printNat_length_pos f.intPart
    simp [Json.size, printVal, printFloat]
    by_cases h : f.neg <;> simp [h] <;> omega
  | str s => simp [Json.size, printVal]
  | arr l =>
    cases l with
    | nil => simp [Json.size, sizeElems, printVal]
    | cons x t =>
      have h1 := size_le_printVal x
      have h2 := sizeElems_le_printElemsTail t
      simp [Json.size, sizeElems, printVal]
      omega
  | obj l =>
    cases l with
    | nil => simp [Json.size, sizeMembers, printVal]
    | cons m t =>
      obtain ⟨k, v⟩ := m
      have h1 := size_le_printVal v
      have h2 := sizeMembers_le_printMembersTail t
      simp [Json.size, sizeMembers, printVal, printMember]
      omega

theorem sizeElems_le_printElemsTail (l : List Json) :
    sizeElems l ≤ (printElemsTail l).length := by
  cases l with
  | nil => simp [sizeElems, printElemsTail]
  | cons x t =>
    have h1 := size_le_printVal x
    have h2 := sizeElems_le_printElemsTail t
    simp [sizeElems, printElemsTail]
    omega

theorem sizeMembers_le_printMembersTail (l : List (String × Json)) :
    sizeMembers l ≤ (printMembersTail l).length := by
  cases l with
  | nil => simp [sizeMembers, printMembersTail]
  | cons m t =>
    obtain ⟨k, v⟩ := m
    have h1 := size_le_printVal v
    have h2 := sizeMembers_le_printMembersTail t
    simp [sizeMembers, printMembersTail, printMember]
    omega

end


theorem parseElems_succ (fuel : Nat) (cs : List Char) :
    parseElems (fuel + 1) cs
      = match parseVal fuel cs with
        | none => none
        | some (j, r) =>
          match r with
          | ',' :: r2 => (parseElems fuel r2).map (fun p => (j :: p.1, p.2))
          | ']' :: r2 => some ([j], r2)
          | _ => none := by
  rw [parseElems.eq_def]

theorem parseMembers_succ (fuel : Nat) (cs : List Char) :
    parseMembers (fuel + 1) cs
      = match cs with
        | [] => none
        | c :: rest =>
          if c = '"' then
            match parseStringBody rest with
            | none => none
            | some (k, r) =>
              match r with
              | ':' :: r2 =>
                match parseVal fuel r2 with
                | none => none
                | some (v, r3) =>
                  match r3 with
                  | [] => none
                  | ',' :: r4 =>
                    (parseMembers fuel r4).map (fun p => ((String.mk k, v) :: p.1, p.2))
                  | d :: r4 => if d = rbrace then some ([(String.mk k, v)], r4) else none
              | _ => none
          else none := by
  rw [parseMembers.eq_def]

theorem parse_print_aux (fuel : Nat) :
    (∀ j rest, Json.size j ≤ fuel → numBoundary rest = true →
        parseVal fuel (printVal j ++ rest) = some (j, rest))
    ∧ (∀ x t rest, sizeElems (x :: t) ≤ fuel →
        parseElems fuel (printVal x ++ (printElemsTail t ++ ']' :: rest)) = some (x :: t, rest))
    ∧ (∀ k v t rest, sizeMembers ((k, v) :: t) ≤ fuel →
        parseMembers fuel (printMember (k, v) ++ (printMembersTail t ++ rbrace :: rest))
          = some ((k, v) :: t, rest)) := by
  induction fuel with
  | zero =>
    refine ⟨fun j rest hsz _ => absurd hsz ?_, fun x t rest hsz => absurd hsz ?_,
      fun k v t rest hsz => absurd hsz ?_⟩
    · have := Json.size_pos j
      omega
    · have := Json.size_pos x
      simp only [sizeElems]
      omega
    · have := Json.size_pos v
      simp only [sizeMembers]
      omega
  | succ fuel ih =>
    obtain ⟨ihP, ihQ, ihR⟩ := ih
    refine ⟨?_, ?_, ?_⟩
    · intro j rest hsz hb
      cases j with
      | null =>
        rw [show printVal .null ++ rest = 'n' :: 'u' :: 'l' :: 'l' :: rest from rfl,
          parseVal.eq_def]
        simp
      | bool b =>
        cases b
        · rw [show printVal (.bool false) ++ rest = 'f' :: 'a' :: 'l' :: 's' :: 'e' :: rest
            from rfl, parseVal.eq_def]
          simp
        · rw [show printVal (.bool true) ++ rest = 't' :: 'r' :: 'u' :: 'e' :: rest from rfl,
            parseVal.eq_def]
          simp
      | int n =>
        rcases lt_or_ge n 0 with hneg | hpos
        · have hp : printVal (.int n) ++ rest = '-' :: (printNat n.natAbs ++ rest) := by
            simp [printVal, printInt, hneg]
          rw [hp, parseVal.eq_def]
          have hval : -((n.natAbs : Nat) : Int) = n := by omega
          have hval2 : -(|n|) = n := by
            rw [abs_of_neg hneg]
            ring
          simp [lbrace, parseNumberCore_printNat true n.natAbs rest hb, hval, hval2]
        · obtain ⟨d, ds, hds⟩ := List.exists_cons_of_ne_nil (natToDigits_ne_nil n.toNat)
          have hp : printVal (.int n) ++ rest
              = digitChar d :: (List.map digitChar ds ++ rest) := by
            simp [printVal, printInt, not_lt.2 hpos, printNat, hds]
          rw [hp, parseVal.eq_def]
          have hback : digitChar d :: (List.map digitChar ds ++ rest)
              = printNat n.toNat ++ rest := by
            simp [printNat, hds]
          have hval : ((n.toNat : Nat) : Int) = n := by omega
          simp [digitChar_ne_of_none (show charToDigit 'n' = none by decide) d,
            digitChar_ne_of_none (show charToDigit 't' = none by decide) d,
            digitChar_ne_of_none (show charToDigit 'f' = none by decide) d,
            digitChar_ne_of_none (show charToDigit '"' = none by decide) d,
            digitChar_ne_of_none (show charToDigit '[' = none by decide) d,
            digitChar_ne_of_none (show charToDigit lbrace = none by decide) d,
            digitChar_ne_of_none (show charToDigit '-' = none by decide) d,
            hback, parseNumberCore_printNat false n.toNat rest hb, hval]
      | float f =>
        obtain ⟨fneg, fip, f0, fs⟩ := f
        cases fneg
        · obtain ⟨d, ds, hds⟩ := List.exists_cons_of_ne_nil (natToDigits_ne_nil fip)
          have hp : printVal (.float ⟨false, fip, f0, fs⟩) ++ rest
              = digitChar d :: (List.map digitChar ds
                ++ ('.' :: (digitChar f0 :: (List.map digitChar fs ++ rest)))) := by
            simp [printVal, printFloat, printNat, hds]
          rw [hp, parseVal.eq_def]
          have harg : digitChar d :: (List.map digitChar ds
              ++ ('.' :: (digitChar f0 :: (List.map digitChar fs ++ rest))))
              = printNat fip ++ ('.' :: ((f0 :: fs).map digitChar ++ rest)) := by
            simp [printNat, hds]
          have hpf := parseNumberCore_printFloat false fip f0 fs rest hb
          simp only [List.map_cons, List.cons_append, List.append_assoc] at hpf
          simp [digitChar_ne_of_none (show charToDigit 'n' = none by decide) d,
            digitChar_ne_of_none (show charToDigit 't' = none by decide) d,
            digitChar_ne_of_none (show charToDigit 'f' = none by decide) d,
            digitChar_ne_of_none (show charToDigit '"' = none by decide) d,
            digitChar_ne_of_none (show charToDigit '[' = none by decide) d,
            digitChar_ne_of_none (show charToDigit lbrace = none by decide) d,
            digitChar_ne_of_none (show charToDigit '-' = none by decide) d,
            harg, hpf]
        · have hp : printVal (.float ⟨true, fip, f0, fs⟩) ++ rest
              = '-' :: (printNat fip ++ ('.' :: (digitChar f0 :: (List.map digitChar fs ++ rest)))) := by
            simp [printVal, printFloat]
          rw [hp, parseVal.eq_def]
          have hpf := parseNumberCore_printFloat true fip f0 fs rest hb
          simp only [List.map_cons, List.cons_append, List.append_assoc] at hpf
          simp [lbrace, hpf]
      | str s =>
        obtain ⟨cs⟩ := s
        have hp : printVal (.str ⟨cs⟩) ++ rest = '"' :: (escapeList cs ++ '"' :: rest) := by
          simp [printVal]
        rw [hp, parseVal.eq_def]
        simp [parseStringBody_escape]
      | arr l =>
        cases l with
        | nil =>
          rw [show printVal (.arr []) ++ rest = '[' :: ']' :: rest from rfl, parseVal.eq_def]
          simp
        | cons x t =>
          obtain ⟨c, l2, hcl, hcne⟩ := printVal_head x
          have hp : printVal (.arr (x :: t)) ++ rest
              = '[' :: (printVal x ++ (printElemsTail t ++ ']' :: rest)) := by
            simp [printVal]
          rw [hp, parseVal.eq_def]
          have hq := ihQ x t rest (by
            simp only [Json.size] at hsz
            omega)
          simp
          split
          · next r heq =>
            rw [hcl] at heq
            exact absurd (List.head_eq_of_cons_eq heq.symm).symm hcne
          · rw [hq]
            rfl
      | obj l =>
        cases l with
        | nil =>
          rw [show printVal (.obj []) ++ rest = lbrace :: rbrace :: rest from rfl,
            parseVal.eq_def]
          simp [lbrace, rbrace]
        | cons m t =>
          obtain ⟨k, v⟩ := m
          obtain ⟨l2, hml⟩ := printMember_head (k, v)
          have hp : printVal (.obj ((k, v) :: t)) ++ rest
              = lbrace :: (printMember (k, v) ++ (printMembersTail t ++ rbrace :: rest)) := by
            simp [printVal]
          rw [hp, parseVal.eq_def]
          have hr := ihR k v t rest (by
            simp only [Json.size] at hsz
            omega)
          simp [lbrace]
          rw [hml]
          simp only [List.cons_append]
          have hne : ('"' : Char) ≠ rbrace := by decide
          simp [hne]
          rw [← List.cons_append, ← hml, hr]
    · intro x t rest hsz
      cases t with
      | nil =>
        have hbx : numBoundary (printElemsTail ([] : List Json) ++ ']' :: rest) = true := by
          simpa [printElemsTail] using numBoundary_rbracket rest
        have hvx := ihP x (printElemsTail ([] : List Json) ++ ']' :: rest)
          (by simp only [sizeElems] at hsz; omega) hbx
        rw [parseElems_succ, hvx]
        simp [printElemsTail]
      | cons y t2 =>
        have hbx : numBoundary (printElemsTail (y :: t2) ++ ']' :: rest) = true := by
          simpa [printElemsTail] using numBoundary_comma _
        have hvx := ihP x (printElemsTail (y :: t2) ++ ']' :: rest)
          (by simp only [sizeElems] at hsz; omega) hbx
        have hq := ihQ y t2 rest (by
          have := Json.size_pos x
          simp only [sizeElems] at hsz ⊢
          omega)
        rw [parseElems_succ, hvx]
        simp only [printElemsTail, List.cons_append, List.append_assoc]
        simp [hq]
    · intro k v t rest hsz
      obtain ⟨kcs⟩ := k
      have hshape : printMember (String.mk kcs, v) ++ (printMembersTail t ++ rbrace :: rest)
          = '"' :: (escapeList kcs
            ++ '"' :: (':' :: (printVal v ++ (printMembersTail t ++ rbrace :: rest)))) := by
        simp [printMember]
      rw [hshape]
      have hbv : numBoundary (printMembersTail t ++ rbrace :: rest) = true := by
        cases t with
        | nil => simpa [printMembersTail] using numBoundary_rbrace rest
        | cons m2 t2 => simpa [printMembersTail] using numBoundary_comma _
      have hv := ihP v (printMembersTail t ++ rbrace :: rest)
        (by simp only [sizeMembers] at hsz; omega) hbv
      cases t with
      | nil =>
        simp only [printMembersTail, List.nil_append] at hv
        rw [parseMembers_succ]
        have hrb : rbrace = '\x7d' := rfl
        rw [hrb] at hv
        simp [parseStringBody_escape, hv, printMembersTail, hrb]
      | cons m2 t2 =>
        obtain ⟨k2, v2⟩ := m2
        have hr := ihR k2 v2 t2 rest (by
          have := Json.size_pos v
          simp only [sizeMembers] at hsz ⊢
          omega)
        simp only [printMembersTail, List.cons_append, List.append_assoc] at hv
        rw [parseMembers_succ]
        simp [parseStringBody_escape, printMembersTail, hv, hr]

theorem Json.parse_print (j : Json) : Json.parse (Json.print j) = some j := by
  have hsz : Json.size j ≤ (printVal j).length + 1 := by
    have := size_le_printVal j
    omega
  have h := (parse_print_aux ((printVal j).length + 1)).1 j [] hsz rfl
  rw [List.append_nil] at h
  simp [Json.parse, Json.print, h]

/-! ## Record model: the user.skir and service.skir schemas

Modelled from the spec: the generated record classes themselves live in the
soia library and the generated modules, which are not part of the source
tree.  Field names, field numbers and defaults follow the spec's data
model (name, wire number, type, default; zero defaults; an implicit
`UNKNOWN` variant numbered 0 for every enum) and the way snippets.py
constructs and observes these types. -/

/-- Timestamp value, measured in Unix milliseconds. -/
structure Timestamp where
  unix_millis : Int
deriving DecidableEq

/-- Modelled from the spec: `Timestamp.from_unix_millis`. -/
def Timestamp.from_unix_millis (n : Int) : Timestamp := ⟨n⟩

/-- Frozen `User.Pet` struct: name(0), height_in_meters(1), picture(2). -/
structure Pet where
  name : String
  height_in_meters : Float64
  picture : String
deriving DecidableEq

/-- Frozen `SubscriptionStatus.Trial` struct: start_time(0). -/
structure Trial where
  start_time : Timestamp
deriving DecidableEq

/-- The `SubscriptionStatus` enum: UNKNOWN(0), FREE(1), PREMIUM(2), and the
data variant trial(3) wrapping a `Trial` payload. -/
inductive SubscriptionStatus where
  | UNKNOWN
  | FREE
  | PREMIUM
  | trial (value : Trial)
deriving DecidableEq

/-- Modelled from the spec: `wrap_<variant>` builds a data variant from a
ready payload value. -/
def SubscriptionStatus.wrap_trial (value : Trial) : SubscriptionStatus :=
  .trial value

/-- Modelled from the spec: `create_<variant>` builds a data variant from
field-style arguments of the payload struct. -/
def SubscriptionStatus.create_trial (start_time : Timestamp) : SubscriptionStatus :=
  .trial ⟨start_time⟩

/-- Modelled from the spec: `union.kind` yields the variant's schema name
for constants, the lowercase variant tag for data variants, and the
sentinel "?" for UNKNOWN. -/
def SubscriptionStatus.kind : SubscriptionStatus → String
  | .UNKNOWN => "?"
  | .FREE => "FREE"
  | .PREMIUM => "PREMIUM"
  | .trial _ => "trial"

/-- Frozen `User` struct: user_id(0), name(1), quote(2), pets(3),
subscription_status(4). -/
structure User where
  user_id : Int
  name : String
  quote : String
  pets : List Pet
  subscription_status : SubscriptionStatus
deriving DecidableEq

/-- Frozen `UserHistory` struct: user(0). -/
structure UserHistory where
  user : User
deriving DecidableEq

/-- Frozen `UserRegistry` struct: users(0), a keyed array keyed on the
item's user_id field. -/
structure UserRegistry where
  users : List User
deriving DecidableEq

/-- Default `Timestamp`. -/
def Timestamp.DEFAULT : Timestamp := ⟨0⟩

/-- Default `Pet`: every field at its zero value. -/
def Pet.DEFAULT : Pet := ⟨"", Float64.zero, ""⟩

/-- Default `Trial`. -/
def Trial.DEFAULT : Trial := ⟨Timestamp.DEFAULT⟩

/-- Default enum value: the UNKNOWN variant. -/
def SubscriptionStatus.DEFAULT : SubscriptionStatus := .UNKNOWN

/-- Default `User`: every field at its zero value. -/
def User.DEFAULT : User := ⟨0, "", "", [], .UNKNOWN⟩

/-- Default `UserHistory`. -/
def UserHistory.DEFAULT : UserHistory := ⟨User.DEFAULT⟩

/-- Default `UserRegistry`. -/
def UserRegistry.DEFAULT : UserRegistry := ⟨[]⟩

/-! ## Serializer: dense and readable JSON codecs

Modelled from the spec: dense encodes a struct as a positional array
ordered by ascending wire number, truncated after the highest non-default
field; readable encodes it as an object keyed by field name, omitting
fields equal to their default.  An enum encodes as a bare wire number
(constants) or `[wire-number, payload]` (data variants) in dense form,
and as a bare name string or a single-key object in readable form, with
`UNKNOWN` encoded as the marker string "?".  Decoding fills missing
trailing dense slots and missing readable keys with defaults, and maps
unrecognized enum wire numbers and names to `UNKNOWN`. -/

/-- Value of a member in a JSON object, by key. -/
def lookupMember (k : String) : List (String × Json) → Option Json
  | [] => none
  | (k2, v) :: t => if k2 = k then some v else lookupMember k t

/-- Dense slot access: an absent trailing slot decodes to the default. -/
def denseField {α : Type} (xs : List Json) (i : Nat) (dec : Json → Option α)
    (dflt : α) : Option α :=
  match xs[i]? with
  | none => some dflt
  | some j => dec j

/-- Readable field access: an absent key decodes to the default. -/
def readableField {α : Type} (ms : List (String × Json)) (k : String)
    (dec : Json → Option α) (dflt : α) : Option α :=
  match lookupMember k ms with
  | none => some dflt
  | some j => dec j

/-- Readable member emitted only when the field is not at its default. -/
def optMember (k : String) (emit : Bool) (j : Json) : List (String × Json) :=
  if emit then [(k, j)] else []

/-- Decoder for an int64 JSON value. -/
def decodeInt : Json → Option Int
  | .int n => some n
  | _ => none

/-- Decoder for a string JSON value. -/
def decodeStr : Json → Option String
  | .str s => some s
  | _ => none

/-- Decoder for a float64 JSON value. -/
def decodeFloat : Json → Option Float64
  | .float f => some f
  | _ => none

/-- Timestamp wire form: dense is the bare unix-milliseconds integer,
readable is an object with the unix_millis field. -/
def Timestamp.to_json (t : Timestamp) (readable : Bool) : Json :=
  if readable then .obj [("unix_millis", .int t.unix_millis)] else .int t.unix_millis

/-- Timestamp decoder, accepting both wire forms. -/
def Timestamp.from_json : Json → Option Timestamp
  | .int n => some ⟨n⟩
  | .obj ms =>
    match lookupMember "unix_millis" ms with
    | none => some ⟨0⟩
    | some (.int n) => some ⟨n⟩
    | some _ => none
  | _ => none

/-- Dense and readable encoder for `Pet`. -/
def Pet.to_json (p : Pet) (readable : Bool) : Json :=
  if readable then
    .obj (optMember "name" (p.name ≠ "") (.str p.name)
      ++ optMember "height_in_meters" (p.height_in_meters ≠ Float64.zero)
          (.float p.height_in_meters)
      ++ optMember "picture" (p.picture ≠ "") (.str p.picture))
  else
    if p.picture ≠ "" then
      .arr [.str p.name, .float p.height_in_meters, .str p.picture]
    else if p.height_in_meters ≠ Float64.zero then
      .arr [.str p.name, .float p.height_in_meters]
    else if p.name ≠ "" then .arr [.str p.name]
    else .arr []

/-- Decoder for `Pet`, accepting both encodings. -/
def Pet.from_json : Json → Option Pet
  | .arr xs => do
    let name ← denseField xs 0 decodeStr ""
    let h ← denseField xs 1 decodeFloat Float64.zero
    let pic ← denseField xs 2 decodeStr ""
    some ⟨name, h, pic⟩
  | .obj ms => do
    let name ← readableField ms "name" decodeStr ""
    let h ← readableField ms "height_in_meters" decodeFloat Float64.zero
    let pic ← readableField ms "picture" decodeStr ""
    some ⟨name, h, pic⟩
  | _ => none

/-- Dense and readable encoder for `Trial`. -/
def Trial.to_json (t : Trial) (readable : Bool) : Json :=
  if readable then
    .obj (optMember "start_time" (t.start_time ≠ Timestamp.DEFAULT)
      (t.start_time.to_json true))
  else if t.start_time ≠ Timestamp.DEFAULT then .arr [t.start_time.to_json false]
  else .arr []

/-- Decoder for `Trial`, accepting both encodings. -/
def Trial.from_json : Json → Option Trial
  | .arr xs => do
    let ts ← denseField xs 0 Timestamp.from_json Timestamp.DEFAULT
    some ⟨ts⟩
  | .obj ms => do
    let ts ← readableField ms "start_time" Timestamp.from_json Timestamp.DEFAULT
    some ⟨ts⟩
  | _ => none

/-- Enum encoder: bare wire number or name for constants, two-element
array or single-key object for the data variant. -/
def SubscriptionStatus.to_json (s : SubscriptionStatus) (readable : Bool) : Json :=
  match s, readable with
  | .UNKNOWN, false => .int 0
  | .FREE, false => .int 1
  | .PREMIUM, false => .int 2
  | .trial t, false => .arr [.int 3, t.to_json false]
  | .UNKNOWN, true => .str "?"
  | .FREE, true => .str "FREE"
  | .PREMIUM, true => .str "PREMIUM"
  | .trial t, true => .obj [("trial", t.to_json true)]

/-- Enum decoder: an unrecognized wire number or variant name never fails;
it degrades to UNKNOWN (forward compatibility). -/
def SubscriptionStatus.from_json : Json → Option SubscriptionStatus
  | .int n =>
    some (if n = 1 then .FREE else if n = 2 then .PREMIUM else .UNKNOWN)
  | .arr [.int n, payload] =>
    if n = 3 then (Trial.from_json payload).map .trial else some .UNKNOWN
  | .str s =>
    some (if s = "FREE" then .FREE else if s = "PREMIUM" then .PREMIUM else .UNKNOWN)
  | .obj [(k, payload)] =>
    if k = "trial" then (Trial.from_json payload).map .trial else some .UNKNOWN
  | _ => none

/-- Dense and readable encoder for `User`, truncating trailing defaults in
ascending wire-number order user_id(0), name(1), quote(2), pets(3),
subscription_status(4). -/
def User.to_json (u : User) (readable : Bool) : Json :=
  if readable then
    .obj (optMember "user_id" (u.user_id ≠ 0) (.int u.user_id)
      ++ optMember "name" (u.name ≠ "") (.str u.name)
      ++ optMember "quote" (u.quote ≠ "") (.str u.quote)
      ++ optMember "pets" (u.pets ≠ [])
          (.arr (u.pets.map (fun p => p.to_json true)))
      ++ optMember "subscription_status" (u.subscription_status ≠ .UNKNOWN)
          (u.subscription_status.to_json true))
  else
    if u.subscription_status ≠ .UNKNOWN then
      .arr [.int u.user_id, .str u.name, .str u.quote,
        .arr (u.pets.map (fun p => p.to_json false)), u.subscription_status.to_json false]
    else if u.pets ≠ [] then
      .arr [.int u.user_id, .str u.name, .str u.quote,
        .arr (u.pets.map (fun p => p.to_json false))]
    else if u.quote ≠ "" then .arr [.int u.user_id, .str u.name, .str u.quote]
    else if u.name ≠ "" then .arr [.int u.user_id, .str u.name]
    else if u.user_id ≠ 0 then .arr [.int u.user_id]
    else .arr []

/-- Element-wise decoding of a JSON array, failing if any element fails. -/
def mapMDecode {α : Type} (dec : Json → Option α) : List Json → Option (List α)
  | [] => some []
  | j :: t => do
    let x ← dec j
    let xs ← mapMDecode dec t
    some (x :: xs)

/-- Decoder for a pets array. -/
def decodePets : Json → Option (List Pet)
  | .arr xs => mapMDecode Pet.from_json xs
  | _ => none

/-- Decoder for `User`, accepting both encodings. -/
def User.from_json : Json → Option User
  | .arr xs => do
    let uid ← denseField xs 0 decodeInt 0
    let name ← denseField xs 1 decodeStr ""
    let quote ← denseField xs 2 decodeStr ""
    let pets ← denseField xs 3 decodePets []
    let status ← denseField xs 4 SubscriptionStatus.from_json .UNKNOWN
    some ⟨uid, name, quote, pets, status⟩
  | .obj ms => do
    let uid ← readableField ms "user_id" decodeInt 0
    let name ← readableField ms "name" decodeStr ""
    let quote ← readableField ms "quote" decodeStr ""
    let pets ← readableField ms "pets" decodePets []
    let status ← readableField ms "subscription_status" SubscriptionStatus.from_json .UNKNOWN
    some ⟨uid, name, quote, pets, status⟩
  | _ => none

/-- Dense and readable encoder for `UserHistory`. -/
def UserHistory.to_json (h : UserHistory) (readable : Bool) : Json :=
  if readable then
    .obj (optMember "user" (h.user ≠ User.DEFAULT) (h.user.to_json true))
  else if h.user ≠ User.DEFAULT then .arr [h.user.to_json false]
  else .arr []

/-- Decoder for `UserHistory`, accepting both encodings. -/
def UserHistory.from_json : Json → Option UserHistory
  | .arr xs => do
    let u ← denseField xs 0 User.from_json User.DEFAULT
    some ⟨u⟩
  | .obj ms => do
    let u ← readableField ms "user" User.from_json User.DEFAULT
    some ⟨u⟩
  | _ => none

/-- Decoder for a users array. -/
def decodeUsers : Json → Option (List User)
  | .arr xs => mapMDecode User.from_json xs
  | _ => none

/-- Dense and readable encoder for `UserRegistry`. -/
def UserRegistry.to_json (r : UserRegistry) (readable : Bool) : Json :=
  if readable then
    .obj (optMember "users" (r.users ≠ [])
      (.arr (r.users.map (fun u => u.to_json true))))
  else if r.users ≠ [] then .arr [.arr (r.users.map (fun u => u.to_json false))]
  else .arr []

/-- Decoder for `UserRegistry`, accepting both encodings. -/
def UserRegistry.from_json : Json → Option UserRegistry
  | .arr xs => do
    let us ← denseField xs 0 decodeUsers []
    some ⟨us⟩
  | .obj ms => do
    let us ← readableField ms "users" decodeUsers []
    some ⟨us⟩
  | _ => none

/-- JSON text form of a `User`, the serializer's `to_json_code`. -/
def User.to_json_code (u : User) (readable : Bool) : String :=
  (u.to_json readable).print

/-- Parse JSON text and decode a `User`, the serializer's `from_json_code`. -/
def User.from_json_code (s : String) : Option User :=
  (Json.parse s).bind User.from_json

/-! ## Serializer round trips -/

theorem timestamp_round_trip (t : Timestamp) (readable : Bool) :
    Timestamp.from_json (t.to_json readable) = some t := by
  obtain ⟨n⟩ := t
  cases readable <;> simp [Timestamp.to_json, Timestamp.from_json, lookupMember]

theorem pet_round_trip (p : Pet) (readable : Bool) :
    Pet.from_json (p.to_json readable) = some p := by
  obtain ⟨n, h, pic⟩ := p
  cases readable
  · by_cases h3 : pic = "" <;> by_cases h2 : h = Float64.zero <;> by_cases h1 : n = "" <;>
      simp [Pet.to_json, Pet.from_json, denseField, decodeStr, decodeFloat, h1, h2, h3]
  · by_cases h1 : n = "" <;> by_cases h2 : h = Float64.zero <;> by_cases h3 : pic = "" <;>
      simp [Pet.to_json, Pet.from_json, readableField, optMember, lookupMember,
        decodeStr, decodeFloat, h1, h2, h3]

theorem trial_round_trip (t : Trial) (readable : Bool) :
    Trial.from_json (t.to_json readable) = some t := by
  obtain ⟨ts⟩ := t
  cases readable
  · by_cases h1 : ts = Timestamp.DEFAULT <;>
      simp [Trial.to_json, Trial.from_json, denseField, timestamp_round_trip, h1]
  · by_cases h1 : ts = Timestamp.DEFAULT <;>
      simp [Trial.to_json, Trial.from_json, readableField, optMember, lookupMember,
        timestamp_round_trip, h1]

theorem subscription_status_round_trip (s : SubscriptionStatus) (readable : Bool) :
    SubscriptionStatus.from_json (s.to_json readable) = some s := by
  cases s <;> cases readable <;>
    simp [SubscriptionStatus.to_json, SubscriptionStatus.from_json, trial_round_trip]

theorem mapMDecode_pets (ps : List Pet) (readable : Bool) :
    mapMDecode Pet.from_json (ps.map (fun p => p.to_json readable)) = some ps := by
  induction ps with
  | nil => rfl
  | cons p t ih => simp [mapMDecode, pet_round_trip, ih]

theorem user_round_trip (u : User) (readable : Bool) :
    User.from_json (u.to_json readable) = some u := by
  obtain ⟨uid, name, quote, pets, status⟩ := u
  cases readable
  · by_cases h5 : status = SubscriptionStatus.UNKNOWN <;> by_cases h4 : pets = ([] : List Pet) <;>
      by_cases h3 : quote = "" <;> by_cases h2 : name = "" <;> by_cases h1 : uid = 0 <;>
      simp [User.to_json, User.from_json, denseField, decodeInt, decodeStr, decodePets,
        mapMDecode, mapMDecode_pets, subscription_status_round_trip, h1, h2, h3, h4, h5]
  · by_cases h5 : status = SubscriptionStatus.UNKNOWN <;> by_cases h4 : pets = ([] : List Pet) <;>
      by_cases h3 : quote = "" <;> by_cases h2 : name = "" <;> by_cases h1 : uid = 0 <;>
      simp [User.to_json, User.from_json, readableField, optMember, lookupMember, decodeInt,
        decodeStr, decodePets, mapMDecode, mapMDecode_pets, subscription_status_round_trip,
        h1, h2, h3, h4, h5]

theorem user_history_round_trip (h : UserHistory) (readable : Bool) :
    UserHistory.from_json (h.to_json readable) = some h := by
  obtain ⟨u⟩ := h
  cases readable <;> by_cases h1 : u = User.DEFAULT <;>
    simp [UserHistory.to_json, UserHistory.from_json, denseField, readableField,
      optMember, lookupMember, user_round_trip, h1]

theorem mapMDecode_users (us : List User) (readable : Bool) :
    mapMDecode User.from_json (us.map (fun u => u.to_json readable)) = some us := by
  induction us with
  | nil => rfl
  | cons u t ih => simp [mapMDecode, user_round_trip, ih]

theorem user_registry_round_trip (r : UserRegistry) (readable : Bool) :
    UserRegistry.from_json (r.to_json readable) = some r := by
  obtain ⟨us⟩ := r
  cases readable <;> by_cases h1 : us = ([] : List User) <;>
    simp [UserRegistry.to_json, UserRegistry.from_json, denseField, readableField,
      optMember, lookupMember, decodeUsers, mapMDecode, mapMDecode_users, h1]

/-! ## Service schema: service.skir -/

/-- Request struct of the AddUser method: user(0). -/
structure AddUserRequest where
  user : User
deriving DecidableEq

/-- Response struct of the AddUser method, with no fields. -/
structure AddUserResponse where
deriving DecidableEq

/-- Request struct of the GetUser method: user_id(0). -/
structure GetUserRequest where
  user_id : Int
deriving DecidableEq

/-- Response struct of the GetUser method: an optional user(0). -/
structure GetUserResponse where
  user : Option User
deriving DecidableEq

/-- Dense and readable encoder for `AddUserRequest`. -/
def AddUserRequest.to_json (r : AddUserRequest) (readable : Bool) : Json :=
  if readable then .obj (optMember "user" (r.user ≠ User.DEFAULT) (r.user.to_json true))
  else if r.user ≠ User.DEFAULT then .arr [r.user.to_json false]
  else .arr []

/-- Decoder for `AddUserRequest`. -/
def AddUserRequest.from_json : Json → Option AddUserRequest
  | .arr xs => do
    let u ← denseField xs 0 User.from_json User.DEFAULT
    some ⟨u⟩
  | .obj ms => do
    let u ← readableField ms "user" User.from_json User.DEFAULT
    some ⟨u⟩
  | _ => none

/-- Dense and readable encoder for the field-less `AddUserResponse`. -/
def AddUserResponse.to_json (_ : AddUserResponse) (readable : Bool) : Json :=
  if readable then .obj [] else .arr []

/-- Decoder for `AddUserResponse`. -/
def AddUserResponse.from_json : Json → Option AddUserResponse
  | .arr _ => some ⟨⟩
  | .obj _ => some ⟨⟩
  | _ => none

/-- Dense and readable encoder for `GetUserRequest`. -/
def GetUserRequest.to_json (r : GetUserRequest) (readable : Bool) : Json :=
  if readable then .obj (optMember "user_id" (r.user_id ≠ 0) (.int r.user_id))
  else if r.user_id ≠ 0 then .arr [.int r.user_id]
  else .arr []

/-- Decoder for `GetUserRequest`. -/
def GetUserRequest.from_json : Json → Option GetUserRequest
  | .arr xs => do
    let n ← denseField xs 0 decodeInt 0
    some ⟨n⟩
  | .obj ms => do
    let n ← readableField ms "user_id" decodeInt 0
    some ⟨n⟩
  | _ => none

/-- Wire form of an optional user: null when absent. -/
def encodeOptUser (u : Option User) (readable : Bool) : Json :=
  match u with
  | none => .null
  | some user => user.to_json readable

/-- Decoder for an optional user. -/
def decodeOptUser : Json → Option (Option User)
  | .null => some none
  | j => (User.from_json j).map some

/-- Dense and readable encoder for `GetUserResponse`. -/
def GetUserResponse.to_json (r : GetUserResponse) (readable : Bool) : Json :=
  if readable then .obj (optMember "user" (r.user ≠ none) (encodeOptUser r.user readable))
  else if r.user ≠ none then .arr [encodeOptUser r.user readable]
  else .arr []

/-- Decoder for `GetUserResponse`. -/
def GetUserResponse.from_json : Json → Option GetUserResponse
  | .arr xs => do
    let u ← denseField xs 0 decodeOptUser none
    some ⟨u⟩
  | .obj ms => do
    let u ← readableField ms "user" decodeOptUser none
    some ⟨u⟩
  | _ => none

theorem add_user_request_round_trip (r : AddUserRequest) (readable : Bool) :
    AddUserRequest.from_json (r.to_json readable) = some r := by
  obtain ⟨u⟩ := r
  cases readable <;> by_cases h1 : u = User.DEFAULT <;>
    simp [AddUserRequest.to_json, AddUserRequest.from_json, denseField, readableField,
      optMember, lookupMember, user_round_trip, h1]

theorem add_user_response_round_trip (r : AddUserResponse) (readable : Bool) :
    AddUserResponse.from_json (r.to_json readable) = some r := by
  obtain ⟨⟩ := r
  cases readable <;> simp [AddUserResponse.to_json, AddUserResponse.from_json]

theorem get_user_request_round_trip (r : GetUserRequest) (readable : Bool) :
    GetUserRequest.from_json (r.to_json readable) = some r := by
  obtain ⟨n⟩ := r
  cases readable <;> by_cases h1 : n = 0 <;>
    simp [GetUserRequest.to_json, GetUserRequest.from_json, denseField, readableField,
      optMember, lookupMember, decodeInt, h1]

theorem User.to_json_ne_null (u : User) (readable : Bool) : u.to_json readable ≠ .null := by
  rw [User.to_json]
  split_ifs <;> simp

theorem decodeOptUser_encode (u : Option User) (readable : Bool) (h : u ≠ none) :
    decodeOptUser (encodeOptUser u readable) = some u := by
  match u with
  | none => exact absurd rfl h
  | some user =>
    rw [decodeOptUser.eq_def]
    split
    · next heq =>
      have hnull : user.to_json readable = .null := by
        simpa [encodeOptUser] using heq
      exact absurd hnull (User.to_json_ne_null user readable)
    · simp [encodeOptUser, user_round_trip]

theorem get_user_response_round_trip (r : GetUserResponse) (readable : Bool) :
    GetUserResponse.from_json (r.to_json readable) = some r := by
  obtain ⟨u⟩ := r
  cases readable <;> by_cases h1 : u = none <;>
    simp [GetUserResponse.to_json, GetUserResponse.from_json, denseField, readableField,
      optMember, lookupMember, decodeOptUser_encode, h1]

/-! ## JSON text wrappers for every serializer -/

/-- JSON text form of a `Pet`. -/
def Pet.to_json_code (p : Pet) (readable : Bool) : String := (p.to_json readable).print

/-- Parse JSON text and decode a `Pet`. -/
def Pet.from_json_code (s : String) : Option Pet := (Json.parse s).bind Pet.from_json

/-- JSON text form of a `Trial`. -/
def Trial.to_json_code (t : Trial) (readable : Bool) : String := (t.to_json readable).print

/-- Parse JSON text and decode a `Trial`. -/
def Trial.from_json_code (s : String) : Option Trial := (Json.parse s).bind Trial.from_json

/-- JSON text form of a `UserHistory`. -/
def UserHistory.to_json_code (h : UserHistory) (readable : Bool) : String :=
  (h.to_json readable).print

/-- Parse JSON text and decode a `UserHistory`. -/
def UserHistory.from_json_code (s : String) : Option UserHistory :=
  (Json.parse s).bind UserHistory.from_json

/-- JSON text form of a `UserRegistry`. -/
def UserRegistry.to_json_code (r : UserRegistry) (readable : Bool) : String :=
  (r.to_json readable).print

/-- Parse JSON text and decode a `UserRegistry`. -/
def UserRegistry.from_json_code (s : String) : Option UserRegistry :=
  (Json.parse s).bind UserRegistry.from_json

/-- JSON text form of an `AddUserRequest`. -/
def AddUserRequest.to_json_code (r : AddUserRequest) (readable : Bool) : String :=
  (r.to_json readable).print

/-- Parse JSON text and decode an `AddUserRequest`. -/
def AddUserRequest.from_json_code (s : String) : Option AddUserRequest :=
  (Json.parse s).bind AddUserRequest.from_json

/-- JSON text form of an `AddUserResponse`. -/
def AddUserResponse.to_json_code (r : AddUserResponse) (readable : Bool) : String :=
  (r.to_json readable).print

/-- Parse JSON text and decode an `AddUserResponse`. -/
def AddUserResponse.from_json_code (s : String) : Option AddUserResponse :=
  (Json.parse s).bind AddUserResponse.from_json

/-- JSON text form of a `GetUserRequest`. -/
def GetUserRequest.to_json_code (r : GetUserRequest) (readable : Bool) : String :=
  (r.to_json readable).print

/-- Parse JSON text and decode a `GetUserRequest`. -/
def GetUserRequest.from_json_code (s : String) : Option GetUserRequest :=
  (Json.parse s).bind GetUserRequest.from_json

/-- JSON text form of a `GetUserResponse`. -/
def GetUserResponse.to_json_code (r : GetUserResponse) (readable : Bool) : String :=
  (r.to_json readable).print

/-- Parse JSON text and decode a `GetUserResponse`. -/
def GetUserResponse.from_json_code (s : String) : Option GetUserResponse :=
  (Json.parse s).bind GetUserResponse.from_json

/-! ## Enum union view and keyed arrays -/

/-- View of the enum value carried by `union`; in the model the enum value
is its own union view, so that `s.union.kind` reads as in the source. -/
def SubscriptionStatus.union (s : SubscriptionStatus) : SubscriptionStatus := s

/-- Modelled from the spec: the lazily indexed key lookup of a keyed
array.  The index is built by a single scan in which a later item with a
duplicate key overwrites an earlier one (last wins), and `find` is the
index lookup. -/
def buildIndex (users : List User) : List (Int × User) :=
  users.foldl (fun idx u => (u.user_id, u) :: idx.filter (fun p => p.1 != u.user_id)) []

/-- Value of a key in the index. -/
def indexLookup (k : Int) : List (Int × User) → Option User
  | [] => none
  | (k2, u) :: t => if k2 = k then some u else indexLookup k t

/-- Modelled from the spec: `find(key)` on the keyed array of users. -/
def UserList.find (users : List User) (k : Int) : Option User :=
  indexLookup k (buildIndex users)

/-- Modelled from the spec: `find_or_default(key)` returns the found item
or the item type's DEFAULT instance, never an absent result. -/
def UserList.find_or_default (users : List User) (k : Int) : User :=
  (UserList.find users k).getD User.DEFAULT

/-! ## Mutable record model and the copy-on-write engine

Modelled from the spec: every struct has a mutable companion whose fields
may hold frozen or mutable sub-values.  Instance identity — what the
source observes when `mutable_user` returns "the same mutable instance" —
is modelled by an `addr` tag drawn from an explicit allocator counter
threaded through the operations; promotion of a frozen field allocates a
fresh tag, returning an existing mutable child does not. -/

/-- Mutable `User.Pet`. -/
structure MutPet where
  addr : Nat
  name : String
  height_in_meters : Float64
  picture : String
deriving DecidableEq

/-- A pet slot of a mutable pets array: frozen or mutable. -/
inductive OrMutPet where
  | frz (p : Pet)
  | mut (m : MutPet)
deriving DecidableEq

/-- Mutable pets array. -/
structure MutPetArray where
  addr : Nat
  items : List OrMutPet
deriving DecidableEq

/-- The pets field of a mutable user: frozen tuple or mutable array. -/
inductive OrMutPets where
  | frz (ps : List Pet)
  | mut (a : MutPetArray)
deriving DecidableEq

/-- Mutable `User`. -/
structure MutUser where
  addr : Nat
  user_id : Int
  name : String
  quote : String
  pets : OrMutPets
  subscription_status : SubscriptionStatus
deriving DecidableEq

/-- The user field of a mutable history: frozen or mutable. -/
inductive OrMutUser where
  | frz (u : User)
  | mut (m : MutUser)
deriving DecidableEq

/-- Mutable `UserHistory`. -/
structure MutUserHistory where
  addr : Nat
  user : OrMutUser
deriving DecidableEq

/-- Shallow mutable copy of a frozen `Pet`. -/
def Pet.to_mutable (p : Pet) (fresh : Nat) : MutPet :=
  ⟨fresh, p.name, p.height_in_meters, p.picture⟩

/-- Shallow mutable copy of a frozen `User`: every field of the copy holds
the frozen value. -/
def User.to_mutable (u : User) (fresh : Nat) : MutUser :=
  ⟨fresh, u.user_id, u.name, u.quote, .frz u.pets, u.subscription_status⟩

/-- Shallow mutable copy of a frozen `UserHistory`. -/
def UserHistory.to_mutable (h : UserHistory) (fresh : Nat) : MutUserHistory :=
  ⟨fresh, .frz h.user⟩

/-- Deep freeze of one pet slot; a frozen slot is reused without copying. -/
def OrMutPet.to_frozen : OrMutPet → Pet
  | .frz p => p
  | .mut m => ⟨m.name, m.height_in_meters, m.picture⟩

/-- Deep freeze of the pets field; a frozen tuple is reused without
copying. -/
def OrMutPets.to_frozen : OrMutPets → List Pet
  | .frz ps => ps
  | .mut a => a.items.map OrMutPet.to_frozen

/-- Deep recursive freeze of a mutable `User`. -/
def MutUser.to_frozen (m : MutUser) : User :=
  ⟨m.user_id, m.name, m.quote, m.pets.to_frozen, m.subscription_status⟩

/-- Deep freeze of the user field of a mutable history. -/
def OrMutUser.to_frozen : OrMutUser → User
  | .frz u => u
  | .mut m => m.to_frozen

/-- Deep recursive freeze of a mutable `UserHistory`. -/
def MutUserHistory.to_frozen (h : MutUserHistory) : UserHistory :=
  ⟨h.user.to_frozen⟩

/-- Modelled from the spec: the would-be snapshot of one pet slot of the
mutable tree at call time, rebuilding the struct from its current leaf
values. -/
def snapshotPet (p : OrMutPet) : Pet :=
  match p with
  | .frz q => ⟨q.name, q.height_in_meters, q.picture⟩
  | .mut m => ⟨m.name, m.height_in_meters, m.picture⟩

/-- Modelled from the spec: the would-be snapshot of the pets field. -/
def snapshotPets (ps : OrMutPets) : List Pet :=
  match ps with
  | .frz l => l.map (fun q => ⟨q.name, q.height_in_meters, q.picture⟩)
  | .mut a => a.items.map snapshotPet

/-- Modelled from the spec: the would-be snapshot of a mutable user tree
at call time, written independently of `to_frozen` as a full deep copy. -/
def snapshotUser (m : MutUser) : User :=
  ⟨m.user_id, m.name, m.quote, snapshotPets m.pets, m.subscription_status⟩

/-- Modelled from the spec: the would-be snapshot of a mutable history. -/
def snapshotHistory (h : MutUserHistory) : UserHistory :=
  ⟨match h.user with
    | .frz u => ⟨u.user_id, u.name, u.quote,
        u.pets.map (fun q => ⟨q.name, q.height_in_meters, q.picture⟩),
        u.subscription_status⟩
    | .mut m => snapshotUser m⟩

/-- The `mutable_user` accessor of a mutable `UserHistory`: return the
user field as-is when it is already mutable, otherwise assign a shallow
mutable copy to the field and return it; the allocator advances only on
promotion. -/
def MutUserHistory.mutable_user (h : MutUserHistory) (fresh : Nat) :
    MutUserHistory × MutUser × Nat :=
  match h.user with
  | .mut m => (h, m, fresh)
  | .frz u =>
    let m := u.to_mutable fresh
    ({ h with user := .mut m }, m, fresh + 1)

/-- The `mutable_pets` accessor of a mutable `User`: return the pets field
as-is when it is already a mutable array, otherwise assign a shallow
mutable copy of it and return that copy. -/
def MutUser.mutable_pets (m : MutUser) (fresh : Nat) : MutUser × MutPetArray × Nat :=
  match m.pets with
  | .mut a => (m, a, fresh)
  | .frz ps =>
    let a : MutPetArray := ⟨fresh, ps.map .frz⟩
    ({ m with pets := .mut a }, a, fresh + 1)

/-- One mutation step on a mutable user tree: a field assignment, or a
mutation of the pets descendant through the `mutable_pets` accessor. -/
inductive UserMutation where
  | setUserId (n : Int)
  | setName (s : String)
  | setQuote (s : String)
  | setPets (p : OrMutPets)
  | setStatus (s : SubscriptionStatus)
  | appendPet (p : OrMutPet)

/-- Application of one mutation step, threading the allocator. -/
def applyMutation (mu : UserMutation) (m : MutUser) (fresh : Nat) : MutUser × Nat :=
  match mu with
  | .setUserId n => ({ m with user_id := n }, fresh)
  | .setName s => ({ m with name := s }, fresh)
  | .setQuote s => ({ m with quote := s }, fresh)
  | .setPets p => ({ m with pets := p }, fresh)
  | .setStatus s => ({ m with subscription_status := s }, fresh)
  | .appendPet p =>
    let r := m.mutable_pets fresh
    ({ r.1 with pets := .mut ⟨r.2.1.addr, r.2.1.items ++ [p]⟩ }, r.2.2)

/-- Modelled from the spec: `replace(field=value, ...)` on a frozen
struct, exposed as one operation; an omitted argument keeps the field. -/
def User.replace (u : User) (uid : Option Int) (name : Option String)
    (quote : Option String) (pets : Option (List Pet))
    (status : Option SubscriptionStatus) : User :=
  ⟨uid.getD u.user_id, name.getD u.name, quote.getD u.quote, pets.getD u.pets,
    status.getD u.subscription_status⟩

/-- The composition the spec defines `replace` to be: `to_mutable()`, the
field assignments, then `to_frozen()`. -/
def User.replaceViaMutable (u : User) (uid : Option Int) (name : Option String)
    (quote : Option String) (pets : Option (List Pet))
    (status : Option SubscriptionStatus) (fresh : Nat) : User :=
  let m0 := u.to_mutable fresh
  let m1 := match uid with
    | none => m0
    | some v => { m0 with user_id := v }
  let m2 := match name with
    | none => m1
    | some v => { m1 with name := v }
  let m3 := match quote with
    | none => m2
    | some v => { m2 with quote := v }
  let m4 := match pets with
    | none => m3
    | some v => { m3 with pets := .frz v }
  let m5 := match status with
    | none => m4
    | some v => { m4 with subscription_status := v }
  m5.to_frozen

/-! ## Service dispatcher

Modelled from the spec: a method registry maps a method name to a handler
taking the typed request, the read-only request headers and the writable
response headers; `handle_request` parses an envelope naming the method
and carrying the JSON-encoded request payload, looks the method up,
decodes, invokes the handler, and classifies the outcome as ok (200),
bad-request (400, malformed envelope or payload or a decode failure),
not-found (404, unregistered method) or server-error (500, an application
exception raised inside the handler).  The envelope format is not pinned
down by the spec; the model uses `name:payload`. -/

/-- Header mapping: ordered key-value text pairs. -/
abbrev Headers := List (String × String)

/-- Value of a header, with a default for an absent key. -/
def Headers.get (hs : Headers) (k dflt : String) : String :=
  match hs.find? (fun p => p.1 == k) with
  | some p => p.2
  | none => dflt

/-- Set a header, replacing an existing entry with the same key. -/
def Headers.set (hs : Headers) (k v : String) : Headers :=
  (k, v) :: hs.filter (fun p => p.1 != k)

/-- Outcome of running one registered method on a decoded envelope. -/
inductive MethodOutcome (St : Type) where
  | decodeError
  | handlerError (msg : String)
  | ok (st : St) (respJson : Json) (resHeaders : Headers)

/-- One registered method: its name and its type-erased runner. -/
structure MethodImpl (St : Type) where
  name : String
  run : St → Json → Headers → Headers → MethodOutcome St

/-- A registered method assembled from its typed pieces: the request
decoder, the response encoder, and the handler, which may fail with an
application error. -/
def mkMethod {St Req Resp : Type} (name : String) (decodeReq : Json → Option Req)
    (encodeResp : Resp → Json)
    (handler : St → Req → Headers → Headers → Except String (St × Resp × Headers)) :
    MethodImpl St :=
  ⟨name, fun st payload reqH resH =>
    match decodeReq payload with
    | none => .decodeError
    | some req =>
      match handler st req reqH resH with
      | .error e => .handlerError e
      | .ok (st2, resp, resH2) => .ok st2 (encodeResp resp) resH2⟩

/-- Raw transport result: payload text, coarse status, content type. -/
structure RawResponse where
  data : String
  status_code : Nat
  content_type : String
deriving DecidableEq

/-- Split the envelope at the first colon into method name and payload. -/
def splitAtColon : List Char → Option (List Char × List Char)
  | [] => none
  | c :: t =>
    if c = ':' then some ([], t)
    else (splitAtColon t).map (fun p => (c :: p.1, p.2))

/-- The dispatcher entry point; always returns a result, so a handler
failure cannot escape uncaught to the transport layer. -/
def Service.handle_request {St : Type} (methods : List (MethodImpl St)) (st : St)
    (req_body : String) (req_headers : Headers) : RawResponse × St × Headers :=
  match splitAtColon req_body.data with
  | none => (⟨"bad request: malformed envelope", 400, "text/plain"⟩, st, [])
  | some (nameCs, payloadCs) =>
    match methods.find? (fun m => m.name == String.mk nameCs) with
    | none => (⟨"method not found", 404, "text/plain"⟩, st, [])
    | some m =>
      match Json.parse (String.mk payloadCs) with
      | none => (⟨"bad request: malformed JSON", 400, "text/plain"⟩, st, [])
      | some payload =>
        match m.run st payload req_headers [] with
        | .decodeError => (⟨"bad request: invalid request payload", 400, "text/plain"⟩, st, [])
        | .handlerError e => (⟨"server error: " ++ e, 500, "text/plain"⟩, st, [])
        | .ok st2 respJson resH => (⟨respJson.print, 200, "application/json"⟩, st2, resH)

/-! ## The service implementation of start_service.py -/

/-- The in-memory id-to-user store of `ServiceImpl`. -/
abbrev Store := List (Int × User)

/-- Value of an id in the store. -/
def Store.get (s : Store) (k : Int) : Option User :=
  match s.find? (fun p => p.1 == k) with
  | some p => some p.2
  | none => none

/-- Store a user under an id, replacing an existing entry. -/
def Store.set (s : Store) (k : Int) (u : User) : Store :=
  (k, u) :: s.filter (fun p => p.1 != k)

/-- `ServiceImpl.add_user`: raises on a zero user id, otherwise stores the
user and writes the X-Bar response header from the X-Foo request header. -/
def ServiceImpl.add_user (st : Store) (request : AddUserRequest)
    (req_headers res_headers : Headers) :
    Except String (Store × AddUserResponse × Headers) :=
  let user := request.user
  if user.user_id = 0 then .error "invalid user id"
  else .ok (st.set user.user_id user, ⟨⟩,
    res_headers.set "X-Bar" ((req_headers.get "X-Foo" "").toUpper))

/-- `ServiceImpl.get_user`: looks the requested id up in the store. -/
def ServiceImpl.get_user (st : Store) (request : GetUserRequest)
    (_req_headers res_headers : Headers) :
    Except String (Store × GetUserResponse × Headers) :=
  .ok (st, ⟨Store.get st request.user_id⟩, res_headers)

/-- The AddUser method registration. -/
def addUserMethod : MethodImpl Store :=
  mkMethod "AddUser" AddUserRequest.from_json (fun r => r.to_json false) ServiceImpl.add_user

/-- The GetUser method registration. -/
def getUserMethod : MethodImpl Store :=
  mkMethod "GetUser" GetUserRequest.from_json (fun r => r.to_json false) ServiceImpl.get_user

/-- The method registry built in start_service.py. -/
def soia_service : List (MethodImpl Store) := [addUserMethod, getUserMethod]

/-! ## Reflection graph

Modelled from the spec: a type descriptor is a `type` reference plus a
flat `records` list enumerating every reachable struct/enum once, each
with its stable id, kind and field list; field types are tagged unions
over primitive, array and record-by-id, the last enabling
self-referential schemas without unrolling.  The whole descriptor value is
serialized by the serializer itself, in the shape shown by snippets.py. -/

/-- Type reference inside a descriptor. -/
inductive TypeRef where
  | primitive (name : String)
  | array (item : TypeRef)
  | record (id : String)
deriving DecidableEq

/-- One field of a record entry: name, type reference, wire number. -/
structure FieldDesc where
  name : String
  type : TypeRef
  number : Nat
deriving DecidableEq

/-- One record entry: kind (struct or enum), stable id, field list. -/
structure RecordDesc where
  kind : String
  id : String
  fields : List FieldDesc
deriving DecidableEq

/-- Descriptor of one root type plus the closure of referenced records. -/
structure TypeDescriptor where
  type : TypeRef
  records : List RecordDesc
deriving DecidableEq

/-- JSON form of a type reference, as printed by snippets.py. -/
def TypeRef.to_json : TypeRef → Json
  | .primitive p => .obj [("kind", .str "primitive"), ("value", .str p)]
  | .record id => .obj [("kind", .str "record"), ("value", .str id)]
  | .array item => .obj [("kind", .str "array"), ("value", .obj [("item", item.to_json)])]

/-- Nesting depth of a type reference, a fuel bound for its decoder. -/
def TypeRef.depth : TypeRef → Nat
  | .array item => item.depth + 1
  | _ => 1

/-- Fuel-indexed decoder for a type reference. -/
def TypeRef.from_json : Nat → Json → Option TypeRef
  | 0, _ => none
  | fuel + 1, .obj ms =>
    match lookupMember "kind" ms, lookupMember "value" ms with
    | some (.str "primitive"), some (.str p) => some (.primitive p)
    | some (.str "record"), some (.str id) => some (.record id)
    | some (.str "array"), some (.obj inner) =>
      match lookupMember "item" inner with
      | some j => (TypeRef.from_json fuel j).map .array
      | none => none
    | _, _ => none
  | _, _ => none

/-- JSON form of a field descriptor; the reflection serializer emits every
field, as the snippets.py output shows for `"number": 0`. -/
def FieldDesc.to_json (f : FieldDesc) : Json :=
  .obj [("name", .str f.name), ("type", f.type.to_json), ("number", .int f.number)]

/-- Decoder for a field descriptor. -/
def FieldDesc.from_json (j : Json) : Option FieldDesc :=
  match j with
  | .obj ms => do
    let name ← (lookupMember "name" ms).bind decodeStr
    let ty ← match lookupMember "type" ms with
      | some jt => TypeRef.from_json (Json.size jt) jt
      | none => none
    let num ← (lookupMember "number" ms).bind decodeInt
    some ⟨name, ty, num.toNat⟩
  | _ => none

/-- JSON form of a record entry. -/
def RecordDesc.to_json (r : RecordDesc) : Json :=
  .obj [("kind", .str r.kind), ("id", .str r.id),
    ("fields", .arr (r.fields.map FieldDesc.to_json))]

/-- Decoder for a record entry. -/
def RecordDesc.from_json (j : Json) : Option RecordDesc :=
  match j with
  | .obj ms => do
    let kind ← (lookupMember "kind" ms).bind decodeStr
    let id ← (lookupMember "id" ms).bind decodeStr
    let fields ← match lookupMember "fields" ms with
      | some (.arr xs) => mapMDecode FieldDesc.from_json xs
      | _ => none
    some ⟨kind, id, fields⟩
  | _ => none

/-- JSON form of a whole type descriptor. -/
def TypeDescriptor.as_json (d : TypeDescriptor) : Json :=
  .obj [("type", d.type.to_json), ("records", .arr (d.records.map RecordDesc.to_json))]

/-- JSON text of a whole type descriptor. -/
def TypeDescriptor.as_json_code (d : TypeDescriptor) : String := d.as_json.print

/-- Decoder for a whole type descriptor. -/
def TypeDescriptor.from_json (j : Json) : Option TypeDescriptor :=
  match j with
  | .obj ms => do
    let ty ← match lookupMember "type" ms with
      | some jt => TypeRef.from_json (Json.size jt) jt
      | none => none
    let records ← match lookupMember "records" ms with
      | some (.arr xs) => mapMDecode RecordDesc.from_json xs
      | _ => none
    some ⟨ty, records⟩
  | _ => none

/-- Parse JSON text and decode a whole type descriptor. -/
def TypeDescriptor.from_json_code (s : String) : Option TypeDescriptor :=
  (Json.parse s).bind TypeDescriptor.from_json

theorem TypeRef.depth_le_size (r : TypeRef) : r.depth ≤ Json.size r.to_json := by
  induction r with
  | primitive p => simp [TypeRef.depth, TypeRef.to_json, Json.size]
  | record id => simp [TypeRef.depth, TypeRef.to_json, Json.size]
  | array item ih =>
    simp only [TypeRef.depth, TypeRef.to_json, Json.size, sizeMembers] at ih ⊢
    omega

theorem type_ref_round_trip (r : TypeRef) (fuel : Nat) (h : r.depth ≤ fuel) :
    TypeRef.from_json fuel r.to_json = some r := by
  induction r generalizing fuel with
  | primitive p =>
    match fuel with
    | 0 => exact absurd h (by simp [TypeRef.depth])
    | fuel + 1 => simp [TypeRef.to_json, TypeRef.from_json, lookupMember]
  | record id =>
    match fuel with
    | 0 => exact absurd h (by simp [TypeRef.depth])
    | fuel + 1 => simp [TypeRef.to_json, TypeRef.from_json, lookupMember]
  | array item ih =>
    match fuel with
    | 0 => exact absurd h (by simp [TypeRef.depth])
    | fuel + 1 =>
      have hd : item.depth ≤ fuel := by
        simp only [TypeRef.depth] at h
        omega
      simp [TypeRef.to_json, TypeRef.from_json, lookupMember, ih fuel hd]

theorem field_desc_round_trip (f : FieldDesc) : FieldDesc.from_json f.to_json = some f := by
  obtain ⟨name, ty, num⟩ := f
  simp [FieldDesc.to_json, FieldDesc.from_json, lookupMember, decodeStr, decodeInt,
    type_ref_round_trip ty _ (TypeRef.depth_le_size ty)]

theorem mapMDecode_fields (fs : List FieldDesc) :
    mapMDecode FieldDesc.from_json (fs.map FieldDesc.to_json) = some fs := by
  induction fs with
  | nil => rfl
  | cons f t ih => simp [mapMDecode, field_desc_round_trip, ih]

theorem record_desc_round_trip (r : RecordDesc) : RecordDesc.from_json r.to_json = some r := by
  obtain ⟨kind, id, fields⟩ := r
  simp [RecordDesc.to_json, RecordDesc.from_json, lookupMember, decodeStr, mapMDecode_fields]

theorem mapMDecode_records (rs : List RecordDesc) :
    mapMDecode RecordDesc.from_json (rs.map RecordDesc.to_json) = some rs := by
  induction rs with
  | nil => rfl
  | cons r t ih => simp [mapMDecode, record_desc_round_trip, ih]

theorem type_descriptor_round_trip (d : TypeDescriptor) :
    TypeDescriptor.from_json d.as_json = some d := by
  obtain ⟨ty, records⟩ := d
  simp [TypeDescriptor.as_json, TypeDescriptor.from_json, lookupMember, mapMDecode_records,
    type_ref_round_trip ty _ (TypeRef.depth_le_size ty)]

/-! ## Keyed array lookup semantics -/

/-- The last item carrying a key: the "last wins" duplicate policy of the
index construction. -/
def lastWithKey (k : Int) : List User → Option User
  | [] => none
  | u :: t =>
    match lastWithKey k t with
    | some v => some v
    | none => if u.user_id = k then some u else none

theorem indexLookup_filter_ne (k k2 : Int) (h : k ≠ k2) (idx : List (Int × User)) :
    indexLookup k (idx.filter (fun p => p.1 != k2)) = indexLookup k idx := by
  induction idx with
  | nil => rfl
  | cons p t ih =>
    obtain ⟨k3, u⟩ := p
    by_cases h2 : k3 = k2
    · subst h2
      have hne : ¬(k3 = k) := fun hh => h (hh ▸ rfl)
      simp [indexLookup, hne, ih]
    · simp [indexLookup, h2, ih]

theorem indexLookup_foldl (users : List User) (idx : List (Int × User)) (k : Int) :
    indexLookup k (users.foldl
        (fun idx u => (u.user_id, u) :: idx.filter (fun p => p.1 != u.user_id)) idx)
      = match lastWithKey k users with
        | some v => some v
        | none => indexLookup k idx := by
  induction users generalizing idx with
  | nil => simp [lastWithKey]
  | cons u t ih =>
    simp only [List.foldl_cons]
    rw [ih]
    cases hlast : lastWithKey k t with
    | some v => simp [lastWithKey, hlast]
    | none =>
      by_cases hk : u.user_id = k
      · simp [lastWithKey, hlast, hk, indexLookup]
      · have hne : k ≠ u.user_id := fun hh => hk (hh ▸ rfl)
        simp [lastWithKey, hlast, hk, indexLookup, indexLookup_filter_ne k u.user_id hne]

theorem UserList.find_eq_lastWithKey (users : List User) (k : Int) :
    UserList.find users k = lastWithKey k users := by
  rw [UserList.find, buildIndex, indexLookup_foldl]
  cases h : lastWithKey k users <;> simp [indexLookup]

theorem lastWithKey_sound (users : List User) (k : Int) (u : User)
    (h : lastWithKey k users = some u) : u.user_id = k ∧ u ∈ users := by
  induction users with
  | nil => cases h
  | cons v t ih =>
    rw [lastWithKey] at h
    cases hlast : lastWithKey k t with
    | some w =>
      rw [hlast] at h
      obtain ⟨h1, h2⟩ := ih (by rw [hlast, ← h])
      exact ⟨h1, List.mem_cons_of_mem v h2⟩
    | none =>
      rw [hlast] at h
      by_cases hk : v.user_id = k
      · rw [if_pos hk] at h
        injection h with hvu
        subst hvu
        exact ⟨hk, List.mem_cons_self _ _⟩
      · rw [if_neg hk] at h
        cases h

theorem lastWithKey_complete (users : List User) (k : Int)
    (h : ∃ u ∈ users, u.user_id = k) : lastWithKey k users ≠ none := by
  induction users with
  | nil => simp at h
  | cons v t ih =>
    rw [lastWithKey]
    cases hlast : lastWithKey k t with
    | some w => simp
    | none =>
      obtain ⟨u, hmem, hkey⟩ := h
      rcases List.mem_cons.1 hmem with rfl | hmem2
      · simp [hkey]
      · exact absurd hlast (ih ⟨u, hmem2, hkey⟩)

/-! ## Snapshot agreement helpers -/

theorem snapshotPet_eq (p : OrMutPet) : snapshotPet p = p.to_frozen := by
  cases p <;> rfl

theorem snapshotPets_eq (ps : OrMutPets) : snapshotPets ps = ps.to_frozen := by
  match ps with
  | .frz l =>
    have hid : (fun q : Pet => (⟨q.name, q.height_in_meters, q.picture⟩ : Pet)) = id := rfl
    simp [snapshotPets, OrMutPets.to_frozen, hid]
  | .mut a =>
    simp [snapshotPets, OrMutPets.to_frozen, snapshotPet_eq]

theorem snapshotUser_eq (m : MutUser) : snapshotUser m = m.to_frozen := by
  simp [snapshotUser, MutUser.to_frozen, snapshotPets_eq]

theorem snapshotHistory_eq (h : MutUserHistory) : snapshotHistory h = h.to_frozen := by
  obtain ⟨a, u⟩ := h
  match u with
  | .frz v =>
    have hid : (fun q : Pet => (⟨q.name, q.height_in_meters, q.picture⟩ : Pet)) = id := rfl
    simp [snapshotHistory, MutUserHistory.to_frozen, OrMutUser.to_frozen, hid]
  | .mut m =>
    simp [snapshotHistory, MutUserHistory.to_frozen, OrMutUser.to_frozen, snapshotUser_eq]

/-! ## Dense slot view of a user, for the positional-encoding claim -/

/-- The five dense slots of a user in ascending wire-number order. -/
def userSlots (u : User) : List Json :=
  [.int u.user_id, .str u.name, .str u.quote,
    .arr (u.pets.map (fun p => p.to_json false)), u.subscription_status.to_json false]

/-- Whether the field with wire number i equals its default. -/
def userFieldIsDefault (u : User) : Nat → Bool
  | 0 => u.user_id = 0
  | 1 => u.name = ""
  | 2 => u.quote = ""
  | 3 => u.pets = []
  | 4 => u.subscription_status = .UNKNOWN
  | _ => true

/-! ## Claims -/

/-- C1: for every value x of a registered struct type, serialization
round-trips in both encodings: `from_json (to_json x) = some x`,
`from_json_code (to_json_code x) = some x`, and
`from_json_code (to_json_code x readable) = some x` with the readable
flag set; stated for every struct type this repository registers. -/
theorem c1_serialization_round_trip :
    (∀ x : User, User.from_json (x.to_json false) = some x
      ∧ User.from_json_code (x.to_json_code false) = some x
      ∧ User.from_json_code (x.to_json_code true) = some x)
    ∧ (∀ x : Pet, Pet.from_json (x.to_json false) = some x
      ∧ Pet.from_json_code (x.to_json_code false) = some x
      ∧ Pet.from_json_code (x.to_json_code true) = some x)
    ∧ (∀ x : Trial, Trial.from_json (x.to_json false) = some x
      ∧ Trial.from_json_code (x.to_json_code false) = some x
      ∧ Trial.from_json_code (x.to_json_code true) = some x)
    ∧ (∀ x : UserHistory, UserHistory.from_json (x.to_json false) = some x
      ∧ UserHistory.from_json_code (x.to_json_code false) = some x
      ∧ UserHistory.from_json_code (x.to_json_code true) = some x)
    ∧ (∀ x : UserRegistry, UserRegistry.from_json (x.to_json false) = some x
      ∧ UserRegistry.from_json_code (x.to_json_code false) = some x
      ∧ UserRegistry.from_json_code (x.to_json_code true) = some x)
    ∧ (∀ x : AddUserRequest, AddUserRequest.from_json (x.to_json false) = some x
      ∧ AddUserRequest.from_json_code (x.to_json_code false) = some x
      ∧ AddUserRequest.from_json_code (x.to_json_code true) = some x)
    ∧ (∀ x : AddUserResponse, AddUserResponse.from_json (x.to_json false) = some x
      ∧ AddUserResponse.from_json_code (x.to_json_code false) = some x
      ∧ AddUserResponse.from_json_code (x.to_json_code true) = some x)
    ∧ (∀ x : GetUserRequest, GetUserRequest.from_json (x.to_json false) = some x
      ∧ GetUserRequest.from_json_code (x.to_json_code false) = some x
      ∧ GetUserRequest.from_json_code (x.to_json_code true) = some x)
    ∧ (∀ x : GetUserResponse, GetUserResponse.from_json (x.to_json false) = some x
      ∧ GetUserResponse.from_json_code (x.to_json_code false) = some x
      ∧ GetUserResponse.from_json_code (x.to_json_code true) = some x) := by
  refine ⟨fun x => ⟨user_round_trip x false, ?_, ?_⟩,
    fun x => ⟨pet_round_trip x false, ?_, ?_⟩,
    fun x => ⟨trial_round_trip x false, ?_, ?_⟩,
    fun x => ⟨user_history_round_trip x false, ?_, ?_⟩,
    fun x => ⟨user_registry_round_trip x false, ?_, ?_⟩,
    fun x => ⟨add_user_request_round_trip x false, ?_, ?_⟩,
    fun x => ⟨add_user_response_round_trip x false, ?_, ?_⟩,
    fun x => ⟨get_user_request_round_trip x false, ?_, ?_⟩,
    fun x => ⟨get_user_response_round_trip x false, ?_, ?_⟩⟩
  · simp [User.from_json_code, User.to_json_code, Json.parse_print, user_round_trip]
  · simp [User.from_json_code, User.to_json_code, Json.parse_print, user_round_trip]
  · simp [Pet.from_json_code, Pet.to_json_code, Json.parse_print, pet_round_trip]
  · simp [Pet.from_json_code, Pet.to_json_code, Json.parse_print, pet_round_trip]
  · simp [Trial.from_json_code, Trial.to_json_code, Json.parse_print, trial_round_trip]
  · simp [Trial.from_json_code, Trial.to_json_code, Json.parse_print, trial_round_trip]
  · simp [UserHistory.from_json_code, UserHistory.to_json_code, Json.parse_print,
      user_history_round_trip]
  · simp [UserHistory.from_json_code, UserHistory.to_json_code, Json.parse_print,
      user_history_round_trip]
  · simp [UserRegistry.from_json_code, UserRegistry.to_json_code, Json.parse_print,
      user_registry_round_trip]
  · simp [UserRegistry.from_json_code, UserRegistry.to_json_code, Json.parse_print,
      user_registry_round_trip]
  · simp [AddUserRequest.from_json_code, AddUserRequest.to_json_code, Json.parse_print,
      add_user_request_round_trip]
  · simp [AddUserRequest.from_json_code, AddUserRequest.to_json_code, Json.parse_print,
      add_user_request_round_trip]
  · simp [AddUserResponse.from_json_code, AddUserResponse.to_json_code, Json.parse_print,
      add_user_response_round_trip]
  · simp [AddUserResponse.from_json_code, AddUserResponse.to_json_code, Json.parse_print,
      add_user_response_round_trip]
  · simp [GetUserRequest.from_json_code, GetUserRequest.to_json_code, Json.parse_print,
      get_user_request_round_trip]
  · simp [GetUserRequest.from_json_code, GetUserRequest.to_json_code, Json.parse_print,
      get_user_request_round_trip]
  · simp [GetUserResponse.from_json_code, GetUserResponse.to_json_code, Json.parse_print,
      get_user_response_round_trip]
  · simp [GetUserResponse.from_json_code, GetUserResponse.to_json_code, Json.parse_print,
      get_user_response_round_trip]

/-- C4: `to_frozen` on a mutable struct returns a frozen value structurally
equal to the call-time snapshot of the tree, for users and histories; and
for any subsequent mutation step of the tree (including a mutation of a
mutable descendant through the `mutable_pets` accessor), the value a prior
`to_frozen` returned still equals the call-time snapshot, while the
mutated tree freezes to the new snapshot — in this pure-state embedding
the frame condition is witnessed by `to_frozen` being a function of the
call-time tree alone. -/
theorem c4_to_frozen_snapshot_frame :
    (∀ m : MutUser, m.to_frozen = snapshotUser m)
    ∧ (∀ h : MutUserHistory, h.to_frozen = snapshotHistory h)
    ∧ (∀ (m : MutUser) (mu : UserMutation) (fresh : Nat),
        m.to_frozen = snapshotUser m
        ∧ (applyMutation mu m fresh).1.to_frozen
            = snapshotUser (applyMutation mu m fresh).1) :=
  ⟨fun m => (snapshotUser_eq m).symm, fun h => (snapshotHistory_eq h).symm,
    fun m _ _ => ⟨(snapshotUser_eq m).symm, (snapshotUser_eq _).symm⟩⟩

/-- C5: the `mutable_<field>` accessors are idempotent per access — calling
the accessor again on the state it produced returns the identical parent
state, the identical mutable child (same allocator tag, so the same
instance), and allocates nothing; when the field already holds a mutable
value the accessor returns it as-is without advancing the allocator; and
after the first access the parent's field holds the returned mutable
child, so later reads see the live mutable value.  Stated for the
struct-typed `mutable_user` and the array-typed `mutable_pets`. -/
theorem c5_mutable_accessor_idempotent :
    (∀ (h : MutUserHistory) (fresh : Nat),
      (h.mutable_user fresh).1.mutable_user (h.mutable_user fresh).2.2
        = ((h.mutable_user fresh).1, (h.mutable_user fresh).2.1, (h.mutable_user fresh).2.2)
      ∧ (∀ m : MutUser, h.user = .mut m → h.mutable_user fresh = (h, m, fresh))
      ∧ (h.mutable_user fresh).1.user = .mut (h.mutable_user fresh).2.1)
    ∧ (∀ (u : MutUser) (fresh : Nat),
      (u.mutable_pets fresh).1.mutable_pets (u.mutable_pets fresh).2.2
        = ((u.mutable_pets fresh).1, (u.mutable_pets fresh).2.1, (u.mutable_pets fresh).2.2)
      ∧ (∀ a : MutPetArray, u.pets = .mut a → u.mutable_pets fresh = (u, a, fresh))
      ∧ (u.mutable_pets fresh).1.pets = .mut (u.mutable_pets fresh).2.1) := by
  constructor
  · intro h fresh
    refine ⟨?_, ?_, ?_⟩
    · rcases hu : h.user with u | m <;>
        simp [MutUserHistory.mutable_user, hu]
    · intro m hm
      simp [MutUserHistory.mutable_user, hm]
    · rcases hu : h.user with u | m <;>
        simp [MutUserHistory.mutable_user, hu]
  · intro u fresh
    refine ⟨?_, ?_, ?_⟩
    · rcases hp : u.pets with ps | a <;>
        simp [MutUser.mutable_pets, hp]
    · intro a ha
      simp [MutUser.mutable_pets, ha]
    · rcases hp : u.pets with ps | a <;>
        simp [MutUser.mutable_pets, hp]

/-- C5 witness: on a concrete mutable history whose user field already
holds a mutable user, `mutable_user` returns that user as-is, with the
same allocator state. -/
theorem c5_mutable_accessor_idempotent_witness :
    (MutUserHistory.mk 0 (.mut (MutUser.mk 7 44 "Lyla Doe" "" (.frz []) .UNKNOWN))).mutable_user 9
      = (MutUserHistory.mk 0 (.mut (MutUser.mk 7 44 "Lyla Doe" "" (.frz []) .UNKNOWN)),
          MutUser.mk 7 44 "Lyla Doe" "" (.frz []) .UNKNOWN, 9) :=
  ((c5_mutable_accessor_idempotent.1
      (MutUserHistory.mk 0 (.mut (MutUser.mk 7 44 "Lyla Doe" "" (.frz []) .UNKNOWN))) 9).2.1)
    (MutUser.mk 7 44 "Lyla Doe" "" (.frz []) .UNKNOWN) rfl

/-- C6: decoding an enum wire value whose variant number (dense) or name
(readable) is not recognized by the schema never fails and yields the
UNKNOWN variant, whose kind accessor returns the sentinel "?"; this holds
for bare numbers outside the constant variants, data-variant arrays with
an unrecognized number, unrecognized name strings, and single-key objects
with an unrecognized variant name. -/
theorem c6_unknown_variant_decode (n : Int) (s k : String) (payload : Json) :
    (n ≠ 1 → n ≠ 2 → SubscriptionStatus.from_json (.int n) = some .UNKNOWN)
    ∧ (s ≠ "FREE" → s ≠ "PREMIUM" → SubscriptionStatus.from_json (.str s) = some .UNKNOWN)
    ∧ (n ≠ 3 → SubscriptionStatus.from_json (.arr [.int n, payload]) = some .UNKNOWN)
    ∧ (k ≠ "trial" → SubscriptionStatus.from_json (.obj [(k, payload)]) = some .UNKNOWN)
    ∧ SubscriptionStatus.UNKNOWN.union.kind = "?" := by
  refine ⟨?_, ?_, ?_, ?_, rfl⟩
  · intro h1 h2
    simp [SubscriptionStatus.from_json, h1, h2]
  · intro h1 h2
    simp [SubscriptionStatus.from_json, h1, h2]
  · intro h3
    simp [SubscriptionStatus.from_json, h3]
  · intro hk
    simp [SubscriptionStatus.from_json, hk]

/-- C6 witness: the unrecognized wire number 99 and the unrecognized
variant name "RED" decode to UNKNOWN, whose kind is "?". -/
theorem c6_unknown_variant_decode_witness :
    SubscriptionStatus.from_json (.int 99) = some .UNKNOWN
    ∧ SubscriptionStatus.from_json (.str "RED") = some .UNKNOWN
    ∧ SubscriptionStatus.UNKNOWN.union.kind = "?" := by
  obtain ⟨ha, hb, _, _, hc⟩ := c6_unknown_variant_decode 99 "RED" "x" .null
  exact ⟨ha (by decide) (by decide), hb (by decide) (by decide), hc⟩

/-- C8: the reflection type descriptor of every record type round-trips
through the serializer: `TypeDescriptor.from_json_code (d.as_json_code) =
some d`.  The statement quantifies over every descriptor value, which in
particular covers self-referential/recursive record types: their record
entries reference their own stable id in `records`, and ids are plain
data here. -/
theorem c8_descriptor_round_trip (d : TypeDescriptor) :
    TypeDescriptor.from_json_code d.as_json_code = some d := by
  simp [TypeDescriptor.from_json_code, TypeDescriptor.as_json_code, Json.parse_print,
    type_descriptor_round_trip]

/-- C9: `replace` on a frozen struct equals the composition the spec
defines it to be — `to_mutable()`, the field assignments, `to_frozen()` —
for every subset of field assignments and every allocator state; the
original frozen value is untouched, which in this pure embedding holds by
construction since both sides are functions of it. -/
theorem c9_replace_equals_mutable_composition (u : User) (uid : Option Int)
    (name quote : Option String) (pets : Option (List Pet))
    (status : Option SubscriptionStatus) (fresh : Nat) :
    u.replace uid name quote pets status
      = u.replaceViaMutable uid name quote pets status fresh := by
  cases uid <;> cases name <;> cases quote <;> cases pets <;> cases status <;> rfl

/-- C10: the two constructors of a struct-payload enum data variant agree:
`create_trial` applied to the payload's field equals `wrap_trial` applied
to the payload struct built from that field, for every timestamp. -/
theorem c10_create_equals_wrap (t : Timestamp) :
    SubscriptionStatus.create_trial t = SubscriptionStatus.wrap_trial ⟨t⟩ := rfl

/-- C3: dense `to_json` of a frozen struct is the positional array of the
slots in ascending wire-number order, truncated after the highest
non-default field — every dropped trailing field equals its default and
the last kept field (when any is kept) does not; and on the concrete
scenario, a User built with only user_id 42 and name "John Doe" encodes
densely as `[42, "John Doe"]` and readably as the object with exactly
the user_id and name members. -/
theorem c3_dense_positional_truncation :
    (∀ u : User, ∃ k, k ≤ 5 ∧ u.to_json false = .arr ((userSlots u).take k)
      ∧ (∀ i, k ≤ i → i < 5 → userFieldIsDefault u i = true)
      ∧ (k = 0 ∨ userFieldIsDefault u (k - 1) = false))
    ∧ (User.mk 42 "John Doe" "" [] .UNKNOWN).to_json false
        = .arr [.int 42, .str "John Doe"]
    ∧ (User.mk 42 "John Doe" "" [] .UNKNOWN).to_json true
        = .obj [("user_id", .int 42), ("name", .str "John Doe")] := by
  refine ⟨?_, by rfl, by rfl⟩
  intro u
  obtain ⟨uid, name, quote, pets, status⟩ := u
  by_cases h5 : status = SubscriptionStatus.UNKNOWN
  · by_cases h4 : pets = ([] : List Pet)
    · by_cases h3 : quote = ""
      · by_cases h2 : name = ""
        · by_cases h1 : uid = 0
          · refine ⟨0, by omega, ?_, ?_, Or.inl rfl⟩
            · simp [User.to_json, userSlots, h1, h2, h3, h4, h5]
            · intro i hi1 hi2
              interval_cases i <;> simp [userFieldIsDefault, h1, h2, h3, h4, h5]
          · refine ⟨1, by omega, ?_, ?_, Or.inr ?_⟩
            · simp [User.to_json, userSlots, h1, h2, h3, h4, h5]
            · intro i hi1 hi2
              interval_cases i <;> simp [userFieldIsDefault, h2, h3, h4, h5]
            · simp [userFieldIsDefault, h1]
        · refine ⟨2, by omega, ?_, ?_, Or.inr ?_⟩
          · simp [User.to_json, userSlots, h2, h3, h4, h5]
          · intro i hi1 hi2
            interval_cases i <;> simp [userFieldIsDefault, h3, h4, h5]
          · simp [userFieldIsDefault, h2]
      · refine ⟨3, by omega, ?_, ?_, Or.inr ?_⟩
        · simp [User.to_json, userSlots, h3, h4, h5]
        · intro i hi1 hi2
          interval_cases i <;> simp [userFieldIsDefault, h4, h5]
        · simp [userFieldIsDefault, h3]
    · refine ⟨4, by omega, ?_, ?_, Or.inr ?_⟩
      · simp [User.to_json, userSlots, h4, h5]
      · intro i hi1 hi2
        interval_cases i
        simp [userFieldIsDefault, h5]
      · simp [userFieldIsDefault, h4]
  · refine ⟨5, by omega, ?_, ?_, Or.inr ?_⟩
    · simp [User.to_json, userSlots, h5]
    · intro i hi1 hi2
      omega
    · simp [userFieldIsDefault, h5]

/-- C3 witness: the theorem applied to the concrete scenario user yields
the dense array of the claim. -/
theorem c3_dense_positional_truncation_witness :
    (User.mk 42 "John Doe" "" [] .UNKNOWN).to_json false
      = .arr [.int 42, .str "John Doe"] :=
  c3_dense_positional_truncation.2.1

/-- C7 counterexample: the claim asserts that on the array
`[A(id=42), B(id=100)]`, `find` returns nothing for key 100; but B's
declared key field equals 100, so `find` returns B, contradicting both
the claim's own general rule and its concrete assertion. -/
theorem c7_find_counterexample :
    UserList.find [User.mk 42 "" "" [] .UNKNOWN, User.mk 100 "" "" [] .UNKNOWN] 100 ≠ none
    ∧ UserList.find [User.mk 42 "" "" [] .UNKNOWN, User.mk 100 "" "" [] .UNKNOWN] 100
      = some (User.mk 100 "" "" [] .UNKNOWN) := by
  constructor
  · intro hcontra
    rw [show UserList.find [User.mk 42 "" "" [] .UNKNOWN, User.mk 100 "" "" [] .UNKNOWN] 100
        = some (User.mk 100 "" "" [] .UNKNOWN) from rfl] at hcontra
    cases hcontra
  · rfl

/-- C7 (amended): `find k` returns an item whose declared key field equals
k when one exists (a member of the array) and nothing when none does, and
`find_or_default` returns the found item or the DEFAULT instance, never an
absent result; on `[A(id=42), B(id=100)]`, `find` returns A for 42 and B
for 100 — and on the snippets registry with ids 42, 43, 44, `find 100`
returns nothing and `find_or_default 100` the DEFAULT user. -/
theorem c7_keyed_find :
    (∀ (users : List User) (k : Int),
      ((∃ u ∈ users, u.user_id = k) →
        ∃ u, UserList.find users k = some u ∧ u.user_id = k ∧ u ∈ users)
      ∧ ((∀ u ∈ users, u.user_id ≠ k) → UserList.find users k = none)
      ∧ UserList.find_or_default users k = (UserList.find users k).getD User.DEFAULT)
    ∧ UserList.find [User.mk 42 "" "" [] .UNKNOWN, User.mk 100 "" "" [] .UNKNOWN] 42
      = some (User.mk 42 "" "" [] .UNKNOWN)
    ∧ UserList.find [User.mk 42 "" "" [] .UNKNOWN, User.mk 100 "" "" [] .UNKNOWN] 100
      = some (User.mk 100 "" "" [] .UNKNOWN)
    ∧ UserList.find [User.mk 42 "" "" [] .UNKNOWN, User.mk 43 "" "" [] .UNKNOWN,
        User.mk 44 "" "" [] .UNKNOWN] 100 = none
    ∧ UserList.find_or_default [User.mk 42 "" "" [] .UNKNOWN, User.mk 100 "" "" [] .UNKNOWN] 300
      = User.DEFAULT := by
  refine ⟨?_, by rfl, by rfl, by rfl, by rfl⟩
  intro users k
  refine ⟨?_, ?_, rfl⟩
  · intro hex
    rw [UserList.find_eq_lastWithKey]
    cases hl : lastWithKey k users with
    | none => exact absurd hl (lastWithKey_complete users k hex)
    | some u =>
      obtain ⟨h1, h2⟩ := lastWithKey_sound users k u hl
      exact ⟨u, rfl, h1, h2⟩
  · intro hall
    rw [UserList.find_eq_lastWithKey]
    cases hl : lastWithKey k users with
    | none => rfl
    | some u =>
      obtain ⟨h1, h2⟩ := lastWithKey_sound users k u hl
      exact absurd h1 (hall u h2)

/-- C7 witness: the amended theorem applied on a singleton array finds the
item with the matching key. -/
theorem c7_keyed_find_witness :
    ∃ u, UserList.find [User.mk 42 "" "" [] .UNKNOWN] 42 = some u ∧ u.user_id = 42
      ∧ u ∈ [User.mk 42 "" "" [] .UNKNOWN] :=
  (c7_keyed_find.1 [User.mk 42 "" "" [] .UNKNOWN] 42).1
    ⟨User.mk 42 "" "" [] .UNKNOWN, by simp, rfl⟩

/-- C2: when the envelope resolves to a registered method built from
typed pieces and the payload parses, then (a) if the request decodes and
the handler raises an application error, `handle_request` returns a
server-error result with status 500 — the exception is absorbed into a
result, it cannot escape since the dispatcher is a total function; (b) if
the request payload fails to decode, the result is the client-error
status 400; and (c) the two statuses are distinct, so a handler failure
is distinguishable from a decode failure. -/
theorem c2_handler_failure_server_error {St Req Resp : Type}
    (methods : List (MethodImpl St)) (st : St) (body : String) (req_headers : Headers)
    (name : String) (decodeReq : Json → Option Req) (encodeResp : Resp → Json)
    (handler : St → Req → Headers → Headers → Except String (St × Resp × Headers))
    (nameCs payloadCs : List Char) (payload : Json)
    (hsplit : splitAtColon body.data = some (nameCs, payloadCs))
    (hfind : methods.find? (fun m => m.name == String.mk nameCs)
      = some (mkMethod name decodeReq encodeResp handler))
    (hparse : Json.parse (String.mk payloadCs) = some payload) :
    (∀ req e, decodeReq payload = some req → handler st req req_headers [] = .error e →
      (Service.handle_request methods st body req_headers).1.status_code = 500)
    ∧ (decodeReq payload = none →
      (Service.handle_request methods st body req_headers).1.status_code = 400)
    ∧ (500 : Nat) ≠ 400 := by
  refine ⟨?_, ?_, by omega⟩
  · intro req e hdec hrun
    simp [Service.handle_request, hsplit, hfind, hparse, mkMethod, hdec, hrun]
  · intro hdec
    simp [Service.handle_request, hsplit, hfind, hparse, mkMethod, hdec]

/-- C2 witness: dispatching AddUser on the registry of start_service.py
with a request whose user has id 0 makes the handler raise, and
handle_request absorbs it into the server-error status 500, distinct from
the decode-failure status 400. -/
theorem c2_handler_failure_server_error_witness :
    (Service.handle_request soia_service [] "AddUser:[]" []).1.status_code = 500
    ∧ (500 : Nat) ≠ 400 := by
  have h := c2_handler_failure_server_error soia_service [] "AddUser:[]" []
    "AddUser" AddUserRequest.from_json (fun r : AddUserResponse => r.to_json false)
    ServiceImpl.add_user "AddUser".data "[]".data (.arr [])
    (by rfl) (by rfl) (by rfl)
  exact ⟨h.1 ⟨User.DEFAULT⟩ "invalid user id" (by rfl) (by rfl), h.2.2⟩
